import Mathlib

/-!
Shallow embedding of the iota-sdk block model: milestone payloads and their
quorum validation, receipt milestone options, UTXO inputs, their DTO
conversions, and the regular transaction essence builder.  Machine integers
are modelled as `Nat` with explicit bounds; Rust `Result` becomes `Except`;
strings that carry hex or decimal renderings of byte data are modelled as
their digit sequences (`List Nat`), which keeps every conversion executable.
-/

namespace IotaSdk

/-! ## Byte-level helpers -/

/-- A byte list is valid when every element fits in one byte. -/
def isBytes (l : List Nat) : Bool := l.all (· < 256)

/-- Hex encoding of a byte list, one byte to two hex digit values
(the ASCII rendering of a digit is a constant bijection and is elided). -/
def hexEncode (bytes : List Nat) : List Nat :=
  bytes.flatMap fun b => [b / 16, b % 16]

/-- Hex decoding: pairs of digit values back to bytes; fails on odd length
or out-of-range digits. -/
def hexDecode : List Nat → Option (List Nat)
  | [] => some []
  | h :: l :: rest =>
    if h < 16 ∧ l < 16 then (hexDecode rest).map fun bs => (16 * h + l) :: bs
    else none
  | [_] => none

/-- Little-endian encoding of a `u64` value into 8 bytes. -/
def u64le (n : Nat) : List Nat :=
  [n % 256, n / 2 ^ 8 % 256, n / 2 ^ 16 % 256, n / 2 ^ 24 % 256,
   n / 2 ^ 32 % 256, n / 2 ^ 40 % 256, n / 2 ^ 48 % 256, n / 2 ^ 56 % 256]

/-- Lexicographic strict order on byte lists, the order `Ord` gives Rust
slices and fixed-size arrays. -/
def lexLt : List Nat → List Nat → Bool
  | [], [] => false
  | [], _ :: _ => true
  | _ :: _, [] => false
  | x :: xs, y :: ys => if x < y then true else if x = y then lexLt xs ys else false

/-- The `iterator_sorted` crate check: adjacent elements strictly increasing. -/
def isUniqueSorted (lt : α → α → Bool) : List α → Bool
  | [] => true
  | [_] => true
  | x :: y :: rest => lt x y && isUniqueSorted lt (y :: rest)

/-- Conversion from an optional value to a fallible one with a fixed error. -/
def toExcept (e : ε) : Option α → Except ε α
  | some a => .ok a
  | none => .error e

/-! ## Identifiers and errors -/

/-- Field names carried by `Error::InvalidField`. -/
inductive FieldName
  | transactionId
  | previousMilestoneId
  | parents
  | inclusionMerkleRoot
  | appliedMerkleRoot
  | metadata
  | signatures
  | transaction
deriving DecidableEq, Repr

/-- The id of an output: transaction id plus output index
(`OutputId = TransactionId ‖ index`). -/
structure OutputId where
  transactionId : List Nat
  index : Nat
deriving DecidableEq, Repr

/-- Chain ids carried by Alias, NFT and Foundry outputs. -/
inductive ChainId
  | aliasId (id : List Nat)
  | nftId (id : List Nat)
  | foundryId (id : List Nat)
deriving DecidableEq, Repr

/-- A chain id is null when its bytes are all zero; the null id marks
first-creation of the chain. -/
def ChainId.isNull : ChainId → Bool
  | .aliasId id => id.all (· = 0)
  | .nftId id => id.all (· = 0)
  | .foundryId id => id.all (· = 0)

/-- The typed error taxonomy, restricted to the variants the embedded
operations can produce. -/
inductive Error
  | milestoneInvalidSignatureCount (count : Nat)
  | milestoneSignaturesNotUniqueSorted
  | invalidReceiptFundsCount (count : Nat)
  | receiptFundsNotUniqueSorted
  | tailTransactionHashNotUnique (previous current : Nat)
  | invalidReceiptFundsSum (sum : Nat)
  | invalidPayloadKind (kind : Nat)
  | invalidField (field : FieldName)
  | invalidInputOutputIndex (index : Nat)
  | invalidInputCount (count : Nat)
  | invalidOutputCount (count : Nat)
  | duplicateUtxo (outputId : OutputId)
  | invalidInputKind (kind : Nat)
  | invalidOutputKind (kind : Nat)
  | invalidTransactionAmountSum (sum : Nat)
  | duplicateOutputChain (chainId : ChainId)
  | invalidMigratedFundsEntryAmount (amount : Nat)
deriving DecidableEq, Repr

/-! ## Signatures and the milestone payload -/

/-- An Ed25519 signature: a 32-byte public key and a 64-byte signature. -/
structure Ed25519Signature where
  publicKey : List Nat
  signature : List Nat
deriving DecidableEq, Repr

/-- The signature sum type; Ed25519 is its only variant. -/
inductive Signature
  | ed25519 (s : Ed25519Signature)
deriving DecidableEq, Repr

/-- The public key of a signature. -/
def Signature.publicKey : Signature → List Nat
  | .ed25519 s => s.publicKey

/-! ## Payloads, migrated funds, receipt milestone option -/

/-- Modelled from the spec: the treasury transaction payload, reduced to the
fields its DTO mirrors (the milestone id of its treasury input and the
amount of its treasury output); its own source is not part of the corpus. -/
structure TreasuryTransactionPayload where
  inputMilestoneId : List Nat
  outputAmount : Nat
deriving DecidableEq, Repr

/-- The payload sum type, reduced to the two variants the embedded
operations distinguish: treasury transactions and tagged data. -/
inductive Payload
  | treasuryTransaction (t : TreasuryTransactionPayload)
  | taggedData (tag : List Nat) (data : List Nat)
deriving DecidableEq, Repr

/-- The wire discriminant of a payload kind. -/
def Payload.kind : Payload → Nat
  | .treasuryTransaction _ => 4
  | .taggedData _ _ => 5

/-- Modelled from the spec: a migrated funds entry is a tail-transaction
hash, a target address (Ed25519, 32 bytes) and an amount; its own source is
not part of the corpus. -/
structure MigratedFundsEntry where
  tailTransactionHash : List Nat
  address : List Nat
  amount : Nat
deriving DecidableEq, Repr

/-- Modelled from the spec: the serialized form of a migrated funds entry,
used for the sorted-unique check — tail hash, address with its kind byte,
then the amount in 8 little-endian bytes. -/
def MigratedFundsEntry.pack (e : MigratedFundsEntry) : List Nat :=
  e.tailTransactionHash ++ (0 :: e.address) ++ u64le e.amount

/-- A receipt milestone option: migrated-at index, last flag, funds entries
and the embedded (treasury transaction) payload. -/
structure ReceiptMilestoneOption where
  migratedAt : Nat
  last : Bool
  funds : List MigratedFundsEntry
  transaction : Payload
deriving DecidableEq, Repr

/-- Lookup of a tail-transaction hash among those already seen, returning
the index it was stored with (the `HashMap` of `verify_funds`, modelled as
an association list with the newest binding first). -/
def lookupTail : List (List Nat × Nat) → List Nat → Option Nat
  | [], _ => none
  | (k, v) :: rest, hash => if k = hash then some v else lookupTail rest hash

/-- The per-entry loop of `verify_funds`: reject a repeated tail
transaction hash with both colliding positions, then add the amount with
overflow checking and reject a cumulative sum above the token supply. -/
def verifyFundsLoop (tokenSupply : Nat) :
    List (List Nat × Nat) → Nat → Nat → List MigratedFundsEntry → Except Error Unit
  | _, _, _, [] => .ok ()
  | seen, fundsSum, index, f :: rest =>
    match lookupTail seen f.tailTransactionHash with
    | some previous => .error (.tailTransactionHashNotUnique previous index)
    | none =>
      let s := fundsSum + f.amount
      if 2 ^ 64 ≤ s then .error (.invalidReceiptFundsSum s)
      else if tokenSupply < s then .error (.invalidReceiptFundsSum s)
      else verifyFundsLoop tokenSupply ((f.tailTransactionHash, index) :: seen) s (index + 1) rest

/-- `verify_funds`: when verification is enabled, the entries must be
strictly sorted and unique in their serialized forms, tail transaction
hashes must be unique, and the cumulative amount must stay within the
token supply. -/
def verifyFunds (VERIFY : Bool) (funds : List MigratedFundsEntry) (tokenSupply : Nat) :
    Except Error Unit :=
  if VERIFY then
    if ¬ isUniqueSorted lexLt (funds.map MigratedFundsEntry.pack) then
      .error .receiptFundsNotUniqueSorted
    else verifyFundsLoop tokenSupply [] 0 0 funds
  else .ok ()

/-- `ReceiptMilestoneOption::new`: bound the funds count to `1..=128`
(`ReceiptFundsCount`), run `verify_funds`, then store the treasury
transaction as the payload. -/
def ReceiptMilestoneOption.new (migratedAt : Nat) (last : Bool)
    (funds : List MigratedFundsEntry) (transaction : TreasuryTransactionPayload)
    (tokenSupply : Nat) : Except Error ReceiptMilestoneOption :=
  if 1 ≤ funds.length ∧ funds.length ≤ 128 then
    match verifyFunds true funds tokenSupply with
    | .error e => .error e
    | .ok () => .ok ⟨migratedAt, last, funds, .treasuryTransaction transaction⟩
  else .error (.invalidReceiptFundsCount funds.length)

/-- `ReceiptMilestoneOption::transaction`: returns the embedded treasury
transaction; `none` models the `unreachable!()` panic branch taken when the
payload is not a treasury transaction. -/
def ReceiptMilestoneOption.transactionOrPanic (r : ReceiptMilestoneOption) :
    Option TreasuryTransactionPayload :=
  match r.transaction with
  | .treasuryTransaction t => some t
  | _ => none

/-- `verify_transaction`: when verification is enabled the embedded payload
must be a treasury transaction. -/
def verifyTransaction (VERIFY : Bool) (transaction : Payload) : Except Error Unit :=
  match VERIFY, transaction with
  | true, .treasuryTransaction _ => .ok ()
  | true, t => .error (.invalidPayloadKind t.kind)
  | false, _ => .ok ()

/-! ## Milestone essence and payload -/

/-- A milestone option: a receipt, or the protocol-parameters option
(modelled from the spec by its DTO fields: target index, protocol version,
binary parameters). -/
inductive MilestoneOption
  | receipt (r : ReceiptMilestoneOption)
  | parameters (targetMilestoneIndex : Nat) (protocolVersion : Nat) (binaryParameters : List Nat)
deriving DecidableEq, Repr

/-- The milestone essence, by the fields its DTO mirrors: index, timestamp,
protocol version, previous milestone id, parent block ids, the two Merkle
roots, metadata and milestone options. -/
structure MilestoneEssence where
  index : Nat
  timestamp : Nat
  protocolVersion : Nat
  previousMilestoneId : List Nat
  parents : List (List Nat)
  inclusionMerkleRoot : List Nat
  appliedMerkleRoot : List Nat
  metadata : List Nat
  options : List MilestoneOption
deriving DecidableEq, Repr

/-- A milestone payload: an essence plus its signatures. -/
structure MilestonePayload where
  essence : MilestoneEssence
  signatures : List Signature
deriving DecidableEq, Repr

/-- `MilestonePayload::new`: bound the signature count to `1..=255`
(`SignatureCount`); no other check is performed here. -/
def MilestonePayload.new (essence : MilestoneEssence) (signatures : List Signature) :
    Except Error MilestonePayload :=
  if 1 ≤ signatures.length ∧ signatures.length ≤ 255 then
    .ok ⟨essence, signatures⟩
  else .error (.milestoneInvalidSignatureCount signatures.length)

/-- `verify_signatures`: when verification is enabled, the public keys
across signatures must be strictly sorted (and hence pairwise distinct). -/
def verifySignatures (VERIFY : Bool) (signatures : List Signature) : Except Error Unit :=
  if VERIFY ∧ ¬ isUniqueSorted lexLt (signatures.map Signature.publicKey) = true then
    .error .milestoneSignaturesNotUniqueSorted
  else .ok ()

/-- `MilestoneId::new` wraps the essence hash bytes. -/
def MilestoneId.new (bytes : List Nat) : List Nat := bytes

/-- `MilestonePayload::id`: the milestone id is the hash of the essence;
the Blake2b hash itself lives outside the corpus and is passed as a
function of the essence. -/
def MilestonePayload.id (essenceHash : MilestoneEssence → List Nat)
    (p : MilestonePayload) : List Nat :=
  MilestoneId.new (essenceHash p.essence)

/-- The validation error taxonomy of `MilestonePayload::validate`. -/
inductive MilestoneValidationError
  | invalidMinThreshold
  | tooFewSignatures (minThreshold : Nat) (count : Nat)
  | insufficientApplicablePublicKeys (count : Nat) (minThreshold : Nat)
  | unapplicablePublicKey (key : List Nat)
  | invalidSignature (index : Nat) (key : List Nat)
  | crypto
deriving DecidableEq, Repr

/-- The signature loop of `MilestonePayload::validate`: in order, each
signature's key must be applicable, its bytes must parse as an Ed25519
public key (failure is a crypto error), and the signature must verify
against the essence hash.  The Ed25519 primitives live outside the corpus
and are passed as the functions `parse` and `verify`. -/
def validateLoop (applicablePublicKeys : List (List Nat))
    (parse : List Nat → Option (List Nat))
    (verify : List Nat → List Nat → List Nat → Bool)
    (essenceHash : List Nat) : Nat → List Signature → Except MilestoneValidationError Unit
  | _, [] => .ok ()
  | index, .ed25519 s :: rest =>
    if ¬ applicablePublicKeys.contains (hexEncode s.publicKey) then
      .error (.unapplicablePublicKey (hexEncode s.publicKey))
    else
      match parse s.publicKey with
      | none => .error .crypto
      | some pk =>
        if ¬ verify pk s.signature essenceHash = true then
          .error (.invalidSignature index (hexEncode s.publicKey))
        else validateLoop applicablePublicKeys parse verify essenceHash (index + 1) rest

/-- `MilestonePayload::validate`: threshold and cardinality checks, then
the signature loop over the essence hash. -/
def MilestonePayload.validate (parse : List Nat → Option (List Nat))
    (verify : List Nat → List Nat → List Nat → Bool)
    (essenceHash : MilestoneEssence → List Nat) (p : MilestonePayload)
    (applicablePublicKeys : List (List Nat)) (minThreshold : Nat) :
    Except MilestoneValidationError Unit :=
  if minThreshold = 0 then .error .invalidMinThreshold
  else if applicablePublicKeys.length < minThreshold then
    .error (.insufficientApplicablePublicKeys applicablePublicKeys.length minThreshold)
  else if p.signatures.length < minThreshold then
    .error (.tooFewSignatures minThreshold p.signatures.length)
  else validateLoop applicablePublicKeys parse verify (essenceHash p.essence) 0 p.signatures

/-! ## Protocol parameters and UTXO input DTO -/

/-- Modelled from the spec: the per-network constants used by the embedded
validators — token supply, protocol version, network id; its own source is
not part of the corpus. -/
structure ProtocolParameters where
  tokenSupply : Nat
  protocolVersion : Nat
  networkId : Nat
deriving DecidableEq, Repr

/-- Modelled from the spec: `OutputId::new` validates that the output index
lies within the output-count bound (outputs per transaction number
`1..=128`, so indices are `0..=127`); its own source is not part of the
corpus. -/
def OutputId.new (transactionId : List Nat) (index : Nat) : Except Error OutputId :=
  if index ≤ 127 then .ok ⟨transactionId, index⟩
  else .error (.invalidInputOutputIndex index)

/-- An input referencing an output. -/
structure UtxoInput where
  outputId : OutputId
deriving DecidableEq, Repr

/-- `UtxoInput::new` builds the underlying output id. -/
def UtxoInput.new (transactionId : List Nat) (index : Nat) : Except Error UtxoInput :=
  (OutputId.new transactionId index).map UtxoInput.mk

/-- The DTO of a UTXO input: kind byte, transaction id in string form
(its hex digits), and the output index. -/
structure UtxoInputDto where
  kind : Nat
  transactionId : List Nat
  transactionOutputIndex : Nat
deriving DecidableEq, Repr

/-- `From<&UtxoInput> for UtxoInputDto`. -/
def UtxoInput.toDto (u : UtxoInput) : UtxoInputDto :=
  ⟨0, hexEncode u.outputId.transactionId, u.outputId.index⟩

/-- `TryFrom<&UtxoInputDto> for UtxoInput`: parse the transaction id from
its string form, then rebuild through `UtxoInput::new`. -/
def UtxoInput.tryFromDto (dto : UtxoInputDto) : Except Error UtxoInput := do
  let id ← toExcept (Error.invalidField .transactionId)
    (match hexDecode dto.transactionId with
     | some bs => if bs.length = 32 then some bs else none
     | none => none)
  UtxoInput.new id dto.transactionOutputIndex

/-! ## Migrated funds entry and treasury transaction DTOs -/

/-- Modelled from the spec: the DTO of a migrated funds entry — tail
transaction hash in hex string form, target address (kind byte and hex key
hash), and the deposit amount; its own source is not part of the corpus. -/
structure MigratedFundsEntryDto where
  tailTransactionHash : List Nat
  addressKind : Nat
  addressPubKeyHash : List Nat
  deposit : Nat
deriving DecidableEq, Repr

/-- Modelled from the spec: DTO conversion of a migrated funds entry. -/
def MigratedFundsEntry.toDto (e : MigratedFundsEntry) : MigratedFundsEntryDto :=
  ⟨hexEncode e.tailTransactionHash, 0, hexEncode e.address, e.amount⟩

/-- Modelled from the spec: parsing a migrated funds entry from its DTO
runs the same validators as construction — the tail hash must decode to its
fixed width (49 bytes), the address must be an Ed25519 address, and the
amount must not exceed the token supply. -/
def MigratedFundsEntry.tryFromDto (dto : MigratedFundsEntryDto) (tokenSupply : Nat) :
    Except Error MigratedFundsEntry := do
  let tail ← toExcept (Error.invalidField .transaction)
    (match hexDecode dto.tailTransactionHash with
     | some bs => if bs.length = 49 then some bs else none
     | none => none)
  let addr ← toExcept (Error.invalidField .transaction)
    (if dto.addressKind = 0 then
      match hexDecode dto.addressPubKeyHash with
      | some bs => if bs.length = 32 then some bs else none
      | none => none
     else none)
  if dto.deposit ≤ tokenSupply then .ok ⟨tail, addr, dto.deposit⟩
  else .error (.invalidMigratedFundsEntryAmount dto.deposit)

/-- Modelled from the spec: the DTO of a treasury transaction payload — the
milestone id of its input in hex string form and the amount of its output
as a decimal string (its little-endian decimal digits). -/
structure TreasuryTransactionPayloadDto where
  inputMilestoneId : List Nat
  outputAmount : List Nat
deriving DecidableEq, Repr

/-- Modelled from the spec: DTO conversion of a treasury transaction. -/
def TreasuryTransactionPayload.toDto (t : TreasuryTransactionPayload) :
    TreasuryTransactionPayloadDto :=
  ⟨hexEncode t.inputMilestoneId, Nat.digits 10 t.outputAmount⟩

/-- Modelled from the spec: parsing a treasury transaction from its DTO
runs the same validators as construction — the milestone id must decode to
32 bytes and the treasury output amount must not exceed the token
supply. -/
def TreasuryTransactionPayload.tryFromDto (dto : TreasuryTransactionPayloadDto)
    (tokenSupply : Nat) : Except Error TreasuryTransactionPayload := do
  let id ← toExcept (Error.invalidField .transaction)
    (match hexDecode dto.inputMilestoneId with
     | some bs => if bs.length = 32 then some bs else none
     | none => none)
  let amount := Nat.ofDigits 10 dto.outputAmount
  if amount ≤ tokenSupply then .ok ⟨id, amount⟩
  else .error (.invalidTransactionAmountSum amount)

/-! ## Receipt milestone option DTO -/

/-- The DTO of a payload, reduced to the variants the embedding uses. -/
inductive PayloadDto
  | treasuryTransaction (t : TreasuryTransactionPayloadDto)
  | taggedData (tag : List Nat) (data : List Nat)
deriving DecidableEq, Repr

/-- The DTO of a receipt milestone option. -/
structure ReceiptMilestoneOptionDto where
  kind : Nat
  migratedAt : Nat
  funds : List MigratedFundsEntryDto
  transaction : PayloadDto
  last : Bool
deriving DecidableEq, Repr

/-- `From<&ReceiptMilestoneOption> for ReceiptMilestoneOptionDto`; `none`
models the panic of the `transaction()` accessor it calls, taken only when
the construction-time invariant is broken. -/
def ReceiptMilestoneOption.toDto (r : ReceiptMilestoneOption) :
    Option ReceiptMilestoneOptionDto :=
  (r.transactionOrPanic).map fun t =>
    ⟨0, r.migratedAt, r.funds.map MigratedFundsEntry.toDto,
      .treasuryTransaction t.toDto, r.last⟩

/-- `ReceiptMilestoneOption::try_from_dto`: convert the funds entries and
the treasury transaction, then rebuild through `new` (which re-runs
`verify_funds`). -/
def ReceiptMilestoneOption.tryFromDto (dto : ReceiptMilestoneOptionDto)
    (tokenSupply : Nat) : Except Error ReceiptMilestoneOption := do
  let funds ← dto.funds.mapM (MigratedFundsEntry.tryFromDto · tokenSupply)
  let t ← match dto.transaction with
    | .treasuryTransaction t => TreasuryTransactionPayload.tryFromDto t tokenSupply
    | _ => .error (.invalidField .transaction)
  ReceiptMilestoneOption.new dto.migratedAt dto.last funds t tokenSupply

/-- Modelled from the spec: the unverified DTO parse of a migrated funds
entry still parses the field shapes but skips the amount validator. -/
def MigratedFundsEntry.tryFromDtoUnverified (dto : MigratedFundsEntryDto) :
    Except Error MigratedFundsEntry := do
  let tail ← toExcept (Error.invalidField .transaction)
    (match hexDecode dto.tailTransactionHash with
     | some bs => if bs.length = 49 then some bs else none
     | none => none)
  let addr ← toExcept (Error.invalidField .transaction)
    (if dto.addressKind = 0 then
      match hexDecode dto.addressPubKeyHash with
      | some bs => if bs.length = 32 then some bs else none
      | none => none
     else none)
  .ok ⟨tail, addr, dto.deposit⟩

/-- Modelled from the spec: the unverified DTO parse of a treasury
transaction still parses the field shapes but skips the amount validator. -/
def TreasuryTransactionPayload.tryFromDtoUnverified (dto : TreasuryTransactionPayloadDto) :
    Except Error TreasuryTransactionPayload := do
  let id ← toExcept (Error.invalidField .transaction)
    (match hexDecode dto.inputMilestoneId with
     | some bs => if bs.length = 32 then some bs else none
     | none => none)
  .ok ⟨id, Nat.ofDigits 10 dto.outputAmount⟩

/-- `ReceiptMilestoneOption::try_from_dto_unverified`: convert the funds
entries without validators, bound only the count, and accept only a
treasury transaction DTO. -/
def ReceiptMilestoneOption.tryFromDtoUnverified (dto : ReceiptMilestoneOptionDto) :
    Except Error ReceiptMilestoneOption := do
  let funds ← dto.funds.mapM MigratedFundsEntry.tryFromDtoUnverified
  if 1 ≤ funds.length ∧ funds.length ≤ 128 then
    match dto.transaction with
    | .treasuryTransaction t => do
      let t ← TreasuryTransactionPayload.tryFromDtoUnverified t
      .ok ⟨dto.migratedAt, dto.last, funds, .treasuryTransaction t⟩
    | _ => .error (.invalidField .transaction)
  else .error (.invalidReceiptFundsCount funds.length)

/-! ## Milestone payload DTO -/

/-- The DTO of a signature: kind byte, public key and signature in hex
string form. -/
structure SignatureDto where
  kind : Nat
  publicKey : List Nat
  signature : List Nat
deriving DecidableEq, Repr

/-- Modelled from the spec: DTO conversion of a signature. -/
def Signature.toDto : Signature → SignatureDto
  | .ed25519 s => ⟨0, hexEncode s.publicKey, hexEncode s.signature⟩

/-- Modelled from the spec: parsing a signature from its DTO decodes a
32-byte public key and a 64-byte signature. -/
def Signature.tryFromDto (dto : SignatureDto) : Except Error Signature := do
  let pk ← toExcept (Error.invalidField .signatures)
    (if dto.kind = 0 then
      match hexDecode dto.publicKey with
      | some bs => if bs.length = 32 then some bs else none
      | none => none
     else none)
  let sig ← toExcept (Error.invalidField .signatures)
    (match hexDecode dto.signature with
     | some bs => if bs.length = 64 then some bs else none
     | none => none)
  .ok (.ed25519 ⟨pk, sig⟩)

/-- The DTO of a milestone option. -/
inductive MilestoneOptionDto
  | receipt (r : ReceiptMilestoneOptionDto)
  | parameters (targetMilestoneIndex : Nat) (protocolVersion : Nat) (binaryParameters : List Nat)
deriving DecidableEq, Repr

/-- DTO conversion of a milestone option; `none` propagates the panic
branch of the receipt conversion. -/
def MilestoneOption.toDto : MilestoneOption → Option MilestoneOptionDto
  | .receipt r => r.toDto.map .receipt
  | .parameters a b c => some (.parameters a b (hexEncode c))

/-- `MilestoneOption::try_from_dto`: receipts go through
`ReceiptMilestoneOption::try_from_dto`; the parameters option (modelled
from the spec) decodes its binary parameters from hex string form. -/
def MilestoneOption.tryFromDto (dto : MilestoneOptionDto) (tokenSupply : Nat) :
    Except Error MilestoneOption :=
  match dto with
  | .receipt r => (ReceiptMilestoneOption.tryFromDto r tokenSupply).map .receipt
  | .parameters a b s =>
    (toExcept (Error.invalidField .metadata) (hexDecode s)).map (MilestoneOption.parameters a b)

/-- Modelled from the spec: `Parents::from_vec` — the spec states no
rejection rule for the parent list of an already-valid payload, so the
construction is modelled as accepting the given ids. -/
def Parents.fromVec (ids : List (List Nat)) : Except Error (List (List Nat)) :=
  .ok ids

/-- Modelled from the spec: `MilestoneEssence::new` — the spec describes
the essence as an immutable record of these fields and states no rejection
rule relevant to values taken from an already-valid payload, so the
construction is modelled as assembling them. -/
def MilestoneEssence.new (index timestamp protocolVersion : Nat)
    (previousMilestoneId : List Nat) (parents : List (List Nat))
    (inclusionMerkleRoot appliedMerkleRoot metadata : List Nat)
    (options : List MilestoneOption) : Except Error MilestoneEssence :=
  .ok ⟨index, timestamp, protocolVersion, previousMilestoneId, parents,
    inclusionMerkleRoot, appliedMerkleRoot, metadata, options⟩

/-- The DTO of a milestone payload, field for field. -/
structure MilestonePayloadDto where
  kind : Nat
  index : Nat
  timestamp : Nat
  protocolVersion : Nat
  previousMilestoneId : List Nat
  parents : List (List Nat)
  inclusionMerkleRoot : List Nat
  appliedMerkleRoot : List Nat
  options : List MilestoneOptionDto
  metadata : List Nat
  signatures : List SignatureDto
deriving DecidableEq, Repr

/-- `From<&MilestonePayload> for MilestonePayloadDto`: render every essence
field and signature into its string form; `none` propagates the panic
branch of the receipt option conversion. -/
def MilestonePayload.toDto (p : MilestonePayload) : Option MilestonePayloadDto :=
  (p.essence.options.mapM MilestoneOption.toDto).map fun optionDtos =>
    ⟨7, p.essence.index, p.essence.timestamp, p.essence.protocolVersion,
      hexEncode p.essence.previousMilestoneId,
      p.essence.parents.map hexEncode,
      hexEncode p.essence.inclusionMerkleRoot,
      hexEncode p.essence.appliedMerkleRoot,
      optionDtos,
      hexEncode p.essence.metadata,
      p.signatures.map Signature.toDto⟩

/-- Decode a fixed-width identifier from its hex string form. -/
def idFromStr (width : Nat) (s : List Nat) : Option (List Nat) :=
  match hexDecode s with
  | some bs => if bs.length = width then some bs else none
  | none => none

/-- `MilestonePayload::try_from_dto`: parse every essence field (taking the
protocol version from the protocol parameters, not the DTO), rebuild the
essence, parse the signatures and finish through `MilestonePayload::new`. -/
def MilestonePayload.tryFromDto (dto : MilestonePayloadDto)
    (protocolParameters : ProtocolParameters) : Except Error MilestonePayload := do
  let previousMilestoneId ← toExcept (Error.invalidField .previousMilestoneId)
    (idFromStr 32 dto.previousMilestoneId)
  let parentIds ← dto.parents.mapM fun s =>
    toExcept (Error.invalidField .parents) (idFromStr 32 s)
  let inclusionMerkleRoot ← toExcept (Error.invalidField .inclusionMerkleRoot)
    (idFromStr 32 dto.inclusionMerkleRoot)
  let appliedMerkleRoot ← toExcept (Error.invalidField .appliedMerkleRoot)
    (idFromStr 32 dto.appliedMerkleRoot)
  let options ← dto.options.mapM
    (MilestoneOption.tryFromDto · protocolParameters.tokenSupply)
  let metadata ← if dto.metadata ≠ [] then
      toExcept (Error.invalidField .metadata) (hexDecode dto.metadata)
    else pure []
  let parents ← Parents.fromVec parentIds
  let essence ← MilestoneEssence.new dto.index dto.timestamp
    protocolParameters.protocolVersion previousMilestoneId parents
    inclusionMerkleRoot appliedMerkleRoot metadata options
  let signatures ← dto.signatures.mapM Signature.tryFromDto
  MilestonePayload.new essence signatures

/-! ## Regular transaction essence -/

/-- An input: a UTXO reference or a treasury reference. -/
inductive Input
  | utxo (outputId : OutputId)
  | treasury (milestoneId : List Nat)
deriving DecidableEq, Repr

/-- The wire discriminant of an input kind. -/
def Input.kind : Input → Nat
  | .utxo _ => 0
  | .treasury _ => 1

/-- An output, reduced to its amount and (for Alias/NFT/Foundry) its chain
id — the attributes the essence-level checks consult. -/
inductive Output
  | basic (amount : Nat)
  | aliasOutput (amount : Nat) (aliasId : List Nat)
  | foundry (amount : Nat) (foundryId : List Nat)
  | nft (amount : Nat) (nftId : List Nat)
  | treasury (amount : Nat)
deriving DecidableEq, Repr

/-- The wire discriminant of an output kind. -/
def Output.kind : Output → Nat
  | .basic _ => 3
  | .aliasOutput _ _ => 4
  | .foundry _ _ => 5
  | .nft _ _ => 6
  | .treasury _ => 2

/-- The amount of an output. -/
def Output.amount : Output → Nat
  | .basic a => a
  | .aliasOutput a _ => a
  | .foundry a _ => a
  | .nft a _ => a
  | .treasury a => a

/-- The chain id of an output, when it carries one. -/
def Output.chainId : Output → Option ChainId
  | .aliasOutput _ id => some (.aliasId id)
  | .foundry _ id => some (.foundryId id)
  | .nft _ id => some (.nftId id)
  | _ => none

/-- The first output id referenced by two inputs, scanning in order. -/
def findDupUtxo (seen : List OutputId) : List Input → Option OutputId
  | [] => none
  | .utxo oid :: rest =>
    if seen.contains oid then some oid else findDupUtxo (oid :: seen) rest
  | .treasury _ :: rest => findDupUtxo seen rest

/-- The first non-null chain id carried by two outputs, scanning in order;
the null id is exempt because it marks first-creation. -/
def findDupChain (seen : List ChainId) : List Output → Option ChainId
  | [] => none
  | o :: rest =>
    match o.chainId with
    | some cid =>
      if ¬ cid.isNull ∧ seen.contains cid then some cid
      else findDupChain (if cid.isNull then seen else cid :: seen) rest
    | none => findDupChain seen rest

/-- A regular transaction essence. -/
structure RegularTransactionEssence where
  networkId : Nat
  inputsCommitment : List Nat
  inputs : List Input
  outputs : List Output
  payload : Option Payload
deriving DecidableEq, Repr

/-- Modelled from the spec: finishing the regular transaction essence
builder — its own source is not part of the corpus (only its tests are).
Checks in the spec's order: input count in `[1,128]`, output count in
`[1,128]`, no two inputs referencing the same output id, every input a
UTXO reference, no treasury output, output amounts summing without `u64`
overflow to at most the token supply, no two outputs sharing a non-null
chain id, and an optional payload only of the tagged-data kind. -/
def RegularTransactionEssence.finish (protocolParameters : ProtocolParameters)
    (networkId : Nat) (inputsCommitment : List Nat) (inputs : List Input)
    (outputs : List Output) (payload : Option Payload) :
    Except Error RegularTransactionEssence :=
  if ¬ (1 ≤ inputs.length ∧ inputs.length ≤ 128) then
    .error (.invalidInputCount inputs.length)
  else if ¬ (1 ≤ outputs.length ∧ outputs.length ≤ 128) then
    .error (.invalidOutputCount outputs.length)
  else match findDupUtxo [] inputs with
  | some oid => .error (.duplicateUtxo oid)
  | none =>
    match inputs.find? fun i => ¬ i.kind = 0 with
    | some i => .error (.invalidInputKind i.kind)
    | none =>
      match outputs.find? fun o => o.kind = 2 with
      | some o => .error (.invalidOutputKind o.kind)
      | none =>
        let total := (outputs.map Output.amount).sum
        if ¬ (total ≤ protocolParameters.tokenSupply ∧ total < 2 ^ 64) then
          .error (.invalidTransactionAmountSum total)
        else match findDupChain [] outputs with
        | some cid => .error (.duplicateOutputChain cid)
        | none =>
          match payload with
          | some p =>
            if p.kind = 5 then
              .ok ⟨networkId, inputsCommitment, inputs, outputs, payload⟩
            else .error (.invalidPayloadKind p.kind)
          | none => .ok ⟨networkId, inputsCommitment, inputs, outputs, payload⟩

/-! ## Validity of values (the domain of the round-trip claims) -/

/-- A fixed-width identifier: bytes of the stated width. -/
def ValidId (width : Nat) (id : List Nat) : Prop :=
  isBytes id = true ∧ id.length = width

instance (width : Nat) (id : List Nat) : Decidable (ValidId width id) :=
  inferInstanceAs (Decidable (_ ∧ _))

/-- A valid UTXO input: a 32-byte transaction id and an index within the
output-count bound. -/
def UtxoInput.Valid (u : UtxoInput) : Prop :=
  ValidId 32 u.outputId.transactionId ∧ u.outputId.index ≤ 127

/-- A valid migrated funds entry: fixed-width byte fields and an amount
within the token supply. -/
def MigratedFundsEntry.Valid (tokenSupply : Nat) (e : MigratedFundsEntry) : Prop :=
  ValidId 49 e.tailTransactionHash ∧ ValidId 32 e.address ∧ e.amount ≤ tokenSupply

/-- A valid treasury transaction: a 32-byte milestone id and an output
amount within the token supply. -/
def TreasuryTransactionPayload.Valid (tokenSupply : Nat)
    (t : TreasuryTransactionPayload) : Prop :=
  ValidId 32 t.inputMilestoneId ∧ t.outputAmount ≤ tokenSupply

/-- A valid receipt milestone option: funds count within `1..=128`, valid
entries passing `verify_funds`, and an embedded valid treasury
transaction. -/
def ReceiptMilestoneOption.Valid (tokenSupply : Nat) (r : ReceiptMilestoneOption) : Prop :=
  1 ≤ r.funds.length ∧ r.funds.length ≤ 128 ∧
  (∀ e ∈ r.funds, e.Valid tokenSupply) ∧
  verifyFunds true r.funds tokenSupply = .ok () ∧
  match r.transaction with
  | .treasuryTransaction t => t.Valid tokenSupply
  | _ => False

/-- A valid milestone option. -/
def MilestoneOption.Valid (tokenSupply : Nat) : MilestoneOption → Prop
  | .receipt r => r.Valid tokenSupply
  | .parameters _ _ c => isBytes c = true

/-- A signature of valid shape: 32-byte public key, 64-byte signature. -/
def Signature.ValidShape : Signature → Prop
  | .ed25519 s => ValidId 32 s.publicKey ∧ ValidId 64 s.signature

/-- A valid milestone payload under given protocol parameters: essence
fields of their fixed widths, a protocol version matching the parameters,
valid options, and `1..=255` well-shaped signatures. -/
def MilestonePayload.Valid (protocolParameters : ProtocolParameters)
    (p : MilestonePayload) : Prop :=
  p.essence.protocolVersion = protocolParameters.protocolVersion ∧
  ValidId 32 p.essence.previousMilestoneId ∧
  (∀ a ∈ p.essence.parents, ValidId 32 a) ∧
  ValidId 32 p.essence.inclusionMerkleRoot ∧
  ValidId 32 p.essence.appliedMerkleRoot ∧
  isBytes p.essence.metadata = true ∧
  (∀ o ∈ p.essence.options, o.Valid protocolParameters.tokenSupply) ∧
  1 ≤ p.signatures.length ∧ p.signatures.length ≤ 255 ∧
  ∀ s ∈ p.signatures, s.ValidShape

/-! ## Derived notions used by the claim statements -/

/-- The three per-signature requirements of the validation loop: the key is
applicable, its bytes parse, and the signature verifies. -/
def SigGood (applicablePublicKeys : List (List Nat))
    (parse : List Nat → Option (List Nat))
    (verify : List Nat → List Nat → List Nat → Bool) (essenceHash : List Nat) :
    Signature → Prop
  | .ed25519 e =>
    applicablePublicKeys.contains (hexEncode e.publicKey) = true ∧
    ∃ pk, parse e.publicKey = some pk ∧ verify pk e.signature essenceHash = true

/-- All partial sums of the entry amounts, starting from `acc`, stay within
the `u64` range and the token supply. -/
def sumsWithin (tokenSupply : Nat) : Nat → List MigratedFundsEntry → Bool
  | _, [] => true
  | acc, f :: rest =>
    decide (acc + f.amount < 2 ^ 64) && decide (acc + f.amount ≤ tokenSupply) &&
      sumsWithin tokenSupply (acc + f.amount) rest

/-- The association list `verify_funds` has accumulated after processing a
fund list whose first entry carries the given index. -/
def seenOf (index : Nat) : List MigratedFundsEntry → List (List Nat × Nat)
  | [] => []
  | f :: rest => seenOf (index + 1) rest ++ [(f.tailTransactionHash, index)]

/-- The position of the first occurrence of a byte list among others. -/
def idxOf (h : List Nat) : List (List Nat) → Nat
  | [] => 0
  | x :: rest => if x = h then 0 else idxOf h rest + 1

/-- The output ids referenced by the UTXO inputs of a list. -/
def utxoIds (inputs : List Input) : List OutputId :=
  inputs.filterMap fun i => match i with | .utxo oid => some oid | _ => none

/-- The non-null chain ids carried by a list of outputs. -/
def nonNullChainIds (outputs : List Output) : List ChainId :=
  (outputs.filterMap Output.chainId).filter fun c => !c.isNull

/-- The construction paths of a receipt milestone option: `new`, the two
DTO conversions, and wire decoding, which runs the type's verifier
`verify_transaction` with verification enabled immediately after the fields
decode. -/
inductive ReceiptConstructed : ReceiptMilestoneOption → Prop
  | viaNew (migratedAt : Nat) (last : Bool) (funds : List MigratedFundsEntry)
      (transaction : TreasuryTransactionPayload) (tokenSupply : Nat)
      (r : ReceiptMilestoneOption) :
      ReceiptMilestoneOption.new migratedAt last funds transaction tokenSupply = .ok r →
      ReceiptConstructed r
  | viaTryFromDto (dto : ReceiptMilestoneOptionDto) (tokenSupply : Nat)
      (r : ReceiptMilestoneOption) :
      ReceiptMilestoneOption.tryFromDto dto tokenSupply = .ok r →
      ReceiptConstructed r
  | viaTryFromDtoUnverified (dto : ReceiptMilestoneOptionDto)
      (r : ReceiptMilestoneOption) :
      ReceiptMilestoneOption.tryFromDtoUnverified dto = .ok r →
      ReceiptConstructed r
  | viaDecode (r : ReceiptMilestoneOption) :
      verifyTransaction true r.transaction = .ok () →
      ReceiptConstructed r

/-- A concrete milestone essence used to evaluate the theorems. -/
def essence0 : MilestoneEssence :=
  ⟨0, 0, 2, List.replicate 32 0, [List.replicate 32 0], List.replicate 32 0,
    List.replicate 32 0, [], []⟩

/-- A concrete signature used to evaluate the theorems. -/
def sig0 : Signature := .ed25519 ⟨List.replicate 32 0, List.replicate 64 0⟩

/-- A concrete migrated funds entry used to evaluate the theorems. -/
def entry0 : MigratedFundsEntry :=
  ⟨List.replicate 49 0, List.replicate 32 0, 100⟩

/-- A concrete treasury transaction used to evaluate the theorems. -/
def tt0 : TreasuryTransactionPayload := ⟨List.replicate 32 0, 100⟩

/-! ## Decidability of validity (used to evaluate concrete witnesses) -/

instance {ε α : Type} [DecidableEq ε] [DecidableEq α] : DecidableEq (Except ε α) :=
  fun a b =>
    match a, b with
    | .ok x, .ok y =>
      if h : x = y then .isTrue (congrArg Except.ok h)
      else .isFalse fun hh => h (Except.ok.inj hh)
    | .error x, .error y =>
      if h : x = y then .isTrue (congrArg Except.error h)
      else .isFalse fun hh => h (Except.error.inj hh)
    | .ok _, .error _ => .isFalse fun hh => Except.noConfusion hh
    | .error _, .ok _ => .isFalse fun hh => Except.noConfusion hh

instance (u : UtxoInput) : Decidable u.Valid :=
  inferInstanceAs (Decidable (_ ∧ _))

instance (tokenSupply : Nat) (e : MigratedFundsEntry) : Decidable (e.Valid tokenSupply) :=
  inferInstanceAs (Decidable (_ ∧ _))

instance (tokenSupply : Nat) (t : TreasuryTransactionPayload) :
    Decidable (t.Valid tokenSupply) :=
  inferInstanceAs (Decidable (_ ∧ _))

instance (tokenSupply : Nat) (r : ReceiptMilestoneOption) :
    Decidable (r.Valid tokenSupply) := by
  unfold ReceiptMilestoneOption.Valid
  cases r.transaction
  all_goals exact inferInstance

instance (tokenSupply : Nat) (o : MilestoneOption) : Decidable (o.Valid tokenSupply) := by
  cases o with
  | receipt r => exact inferInstanceAs (Decidable (r.Valid tokenSupply))
  | parameters a b c => exact inferInstanceAs (Decidable (isBytes c = true))

instance (s : Signature) : Decidable s.ValidShape := by
  cases s
  exact inferInstanceAs (Decidable (_ ∧ _))

instance (protocolParameters : ProtocolParameters) (p : MilestonePayload) :
    Decidable (p.Valid protocolParameters) :=
  inferInstanceAs (Decidable (_ ∧ _))

/-! ## Basic lemmas about the byte-level helpers -/

theorem hexDecode_hexEncode {bytes : List Nat} (h : isBytes bytes = true) :
    hexDecode (hexEncode bytes) = some bytes := by
  induction bytes with
  | nil => rfl
  | cons b rest ih =>
    simp only [isBytes, List.all_cons, Bool.and_eq_true, decide_eq_true_eq] at h
    have hb : b < 256 := h.1
    have hrest := ih (by simp [isBytes, h.2])
    have h1 : b / 16 < 16 := Nat.div_lt_of_lt_mul (by omega)
    have h2 : b % 16 < 16 := Nat.mod_lt _ (by omega)
    simp only [hexEncode, List.flatMap_cons, List.cons_append, List.nil_append]
    simp only [hexEncode] at hrest
    simp [hexDecode, h1, h2, hrest, Nat.div_add_mod]

@[simp] theorem toExcept_some (e : ε) (a : α) : toExcept e (some a) = .ok a := rfl

@[simp] theorem toExcept_none (e : ε) : toExcept e (none : Option α) = .error e := rfl

/-! ## Round-trip helper lemmas -/

theorem idFromStr_hexEncode {width : Nat} {id : List Nat} (h : ValidId width id) :
    idFromStr width (hexEncode id) = some id := by
  simp [idFromStr, hexDecode_hexEncode h.1, h.2]

theorem mapM_map_ok {α β : Type} {conv : α → β} {back : β → Except Error α}
    (l : List α) (h : ∀ a ∈ l, back (conv a) = .ok a) :
    (l.map conv).mapM back = .ok l := by
  induction l with
  | nil => rfl
  | cons a rest ih =>
    simp only [List.map_cons, List.mapM_cons, h a (List.mem_cons_self a rest),
      ih fun a ha => h a (List.mem_cons_of_mem _ ha)]
    rfl

theorem mapM_toDto_some {α β : Type} {conv : α → Option β}
    (l : List α) (f : α → β) (h : ∀ a ∈ l, conv a = some (f a)) :
    l.mapM conv = some (l.map f) := by
  induction l with
  | nil => rfl
  | cons a rest ih =>
    simp only [List.mapM_cons, h a (List.mem_cons_self a rest),
      ih fun a ha => h a (List.mem_cons_of_mem _ ha), List.map_cons]
    rfl

theorem entry_dto_roundtrip {tokenSupply : Nat} {e : MigratedFundsEntry}
    (h : e.Valid tokenSupply) :
    MigratedFundsEntry.tryFromDto e.toDto tokenSupply = .ok e := by
  obtain ⟨ht, ha, hs⟩ := h
  simp [MigratedFundsEntry.tryFromDto, MigratedFundsEntry.toDto,
    hexDecode_hexEncode ht.1, hexDecode_hexEncode ha.1, ht.2, ha.2, toExcept,
    hs, Bind.bind, Except.bind]

theorem treasury_dto_roundtrip {tokenSupply : Nat} {t : TreasuryTransactionPayload}
    (h : t.Valid tokenSupply) :
    TreasuryTransactionPayload.tryFromDto t.toDto tokenSupply = .ok t := by
  obtain ⟨hi, hs⟩ := h
  simp [TreasuryTransactionPayload.tryFromDto, TreasuryTransactionPayload.toDto,
    hexDecode_hexEncode hi.1, hi.2, toExcept, Bind.bind, Except.bind,
    Nat.ofDigits_digits, hs]

theorem receipt_dto_roundtrip {tokenSupply : Nat} {r : ReceiptMilestoneOption}
    (h : r.Valid tokenSupply) :
    ∃ dto, r.toDto = some dto ∧
      ReceiptMilestoneOption.tryFromDto dto tokenSupply = .ok r := by
  obtain ⟨hlo, hhi, hentries, hfunds, hmatch⟩ := h
  obtain ⟨t, htr, htv⟩ : ∃ t, r.transaction = .treasuryTransaction t ∧
      t.Valid tokenSupply := by
    cases hcase : r.transaction with
    | treasuryTransaction t => exact ⟨t, rfl, by rw [hcase] at hmatch; exact hmatch⟩
    | taggedData tag data => rw [hcase] at hmatch; exact absurd hmatch not_false
  have hacc : r.transactionOrPanic = some t := by
    simp [ReceiptMilestoneOption.transactionOrPanic, htr]
  refine ⟨⟨0, r.migratedAt, r.funds.map MigratedFundsEntry.toDto,
    .treasuryTransaction t.toDto, r.last⟩, ?_, ?_⟩
  · simp [ReceiptMilestoneOption.toDto, hacc]
  · have hmap : (r.funds.map MigratedFundsEntry.toDto).mapM
        (MigratedFundsEntry.tryFromDto · tokenSupply) = .ok r.funds :=
      mapM_map_ok _ fun e he => entry_dto_roundtrip (hentries e he)
    simp only [ReceiptMilestoneOption.tryFromDto, hmap, treasury_dto_roundtrip htv,
      Bind.bind, Except.bind]
    simp only [ReceiptMilestoneOption.new, hlo, hhi, and_self, if_true, hfunds]
    cases r with
    | mk migratedAt last funds transaction => simp_all

theorem hexEncode_ne_nil {l : List Nat} (h : l ≠ []) : hexEncode l ≠ [] := by
  cases l with
  | nil => exact absurd rfl h
  | cons b rest => simp [hexEncode]

theorem hexEncode_nil : hexEncode [] = [] := rfl

theorem utxo_dto_roundtrip {u : UtxoInput} (h : u.Valid) :
    UtxoInput.tryFromDto u.toDto = .ok u := by
  obtain ⟨hid, hidx⟩ := h
  simp [UtxoInput.tryFromDto, UtxoInput.toDto, hexDecode_hexEncode hid.1, hid.2,
    toExcept, Bind.bind, Except.bind, UtxoInput.new, OutputId.new, hidx, Except.map]

theorem signature_dto_roundtrip {s : Signature} (h : s.ValidShape) :
    Signature.tryFromDto s.toDto = .ok s := by
  cases s with
  | ed25519 s =>
    obtain ⟨hpk, hsig⟩ := h
    simp [Signature.tryFromDto, Signature.toDto, hexDecode_hexEncode hpk.1,
      hexDecode_hexEncode hsig.1, hpk.2, hsig.2, toExcept, Bind.bind, Except.bind]

theorem option_dto_roundtrip {tokenSupply : Nat} {o : MilestoneOption}
    (h : o.Valid tokenSupply) :
    ∃ d, o.toDto = some d ∧ MilestoneOption.tryFromDto d tokenSupply = .ok o := by
  cases o with
  | receipt r =>
    obtain ⟨d, hd, hback⟩ := receipt_dto_roundtrip h
    exact ⟨.receipt d, by simp [MilestoneOption.toDto, hd],
      by simp [MilestoneOption.tryFromDto, hback, Except.map]⟩
  | parameters a b c =>
    exact ⟨.parameters a b (hexEncode c), rfl,
      by simp [MilestoneOption.tryFromDto, toExcept, hexDecode_hexEncode h, Except.map]⟩

theorem options_mapM_roundtrip {tokenSupply : Nat} (l : List MilestoneOption)
    (h : ∀ o ∈ l, o.Valid tokenSupply) :
    ∃ ds, l.mapM MilestoneOption.toDto = some ds ∧
      ds.mapM (MilestoneOption.tryFromDto · tokenSupply) = .ok l := by
  induction l with
  | nil => exact ⟨[], rfl, rfl⟩
  | cons o rest ih =>
    obtain ⟨d, hd, hback⟩ := option_dto_roundtrip (h o (List.mem_cons_self o rest))
    obtain ⟨ds, hds, hdsback⟩ := ih fun o ho => h o (List.mem_cons_of_mem _ ho)
    refine ⟨d :: ds, ?_, ?_⟩
    · simp only [List.mapM_cons, hd, hds]
      rfl
    · simp only [List.mapM_cons, hback, hdsback]
      rfl

theorem milestone_dto_roundtrip {pp : ProtocolParameters} {p : MilestonePayload}
    (h : p.Valid pp) :
    ∃ dto, p.toDto = some dto ∧ MilestonePayload.tryFromDto dto pp = .ok p := by
  obtain ⟨essence, sigs⟩ := p
  obtain ⟨i, ts, pv, prev, par, incl, appl, meta, opts⟩ := essence
  obtain ⟨hver, hprev, hpar, hincl, happl, hmeta, hopts, hslo, hshi, hsigs⟩ := h
  simp only at hver hprev hpar hincl happl hmeta hopts hslo hshi hsigs
  subst hver
  obtain ⟨ds, hds, hdsback⟩ := options_mapM_roundtrip opts hopts
  refine ⟨⟨7, i, ts, pp.protocolVersion, hexEncode prev, par.map hexEncode,
    hexEncode incl, hexEncode appl, ds, hexEncode meta, sigs.map Signature.toDto⟩,
    ?_, ?_⟩
  · simp only [MilestonePayload.toDto]
    rw [hds]
    rfl
  · have hparents : (par.map hexEncode).mapM
        (fun s => toExcept (Error.invalidField .parents) (idFromStr 32 s)) = .ok par :=
      mapM_map_ok _ fun a ha => by simp [idFromStr_hexEncode (hpar a ha)]
    have hsigsback : (sigs.map Signature.toDto).mapM Signature.tryFromDto = .ok sigs :=
      mapM_map_ok _ fun s hs => signature_dto_roundtrip (hsigs s hs)
    by_cases hm : meta = ([] : List Nat)
    · subst hm
      simp only [MilestonePayload.tryFromDto, idFromStr_hexEncode hprev,
        idFromStr_hexEncode hincl, idFromStr_hexEncode happl, toExcept_some,
        hparents, hdsback, hsigsback, Bind.bind, Except.bind, Parents.fromVec,
        MilestoneEssence.new, MilestonePayload.new, hexEncode_nil, ne_eq,
        not_true_eq_false, if_false, pure, Except.pure, hslo, hshi, and_self,
        if_true]
    · simp only [MilestonePayload.tryFromDto, idFromStr_hexEncode hprev,
        idFromStr_hexEncode hincl, idFromStr_hexEncode happl, toExcept_some,
        hparents, hdsback, hsigsback, Bind.bind, Except.bind, Parents.fromVec,
        MilestoneEssence.new, MilestonePayload.new, ne_eq, hexEncode_ne_nil hm,
        not_false_eq_true, if_true, hexDecode_hexEncode hmeta, hslo, hshi,
        and_self]

/-! ## Lemmas about the signature validation loop -/

theorem validateLoop_all_good (keys : List (List Nat))
    (parse : List Nat → Option (List Nat))
    (verify : List Nat → List Nat → List Nat → Bool) (h : List Nat) :
    ∀ (sigs : List Signature) (idx : Nat),
      (∀ s ∈ sigs, SigGood keys parse verify h s) →
      validateLoop keys parse verify h idx sigs = .ok () := by
  intro sigs
  induction sigs with
  | nil => intro idx _; rfl
  | cons s rest ih =>
    intro idx hall
    cases s with
    | ed25519 e =>
      obtain ⟨hc, pk, hp, hv⟩ := hall _ (List.mem_cons_self _ _)
      simp only [validateLoop, hc, hp, hv, not_true_eq_false, Bool.false_eq_true,
        if_false, ite_false]
      exact ih (idx + 1) fun s hs => hall s (List.mem_cons_of_mem _ hs)

theorem validateLoop_append_good (keys : List (List Nat))
    (parse : List Nat → Option (List Nat))
    (verify : List Nat → List Nat → List Nat → Bool) (h : List Nat) :
    ∀ (pre rest : List Signature) (idx : Nat),
      (∀ s ∈ pre, SigGood keys parse verify h s) →
      validateLoop keys parse verify h idx (pre ++ rest) =
        validateLoop keys parse verify h (idx + pre.length) rest := by
  intro pre
  induction pre with
  | nil => intro rest idx _; simp
  | cons s pre' ih =>
    intro rest idx hall
    cases s with
    | ed25519 e =>
      obtain ⟨hc, pk, hp, hv⟩ := hall _ (List.mem_cons_self _ _)
      simp only [List.cons_append, validateLoop, hc, hp, hv, not_true_eq_false,
        Bool.false_eq_true, if_false, ite_false, List.append_eq]
      rw [ih rest (idx + 1) fun s hs => hall s (List.mem_cons_of_mem _ hs)]
      congr 1
      simp only [List.length_cons]
      omega

/-! ## Lemmas about the funds verification loop -/

theorem lookupTail_append_of_not_mem {h : List Nat} :
    ∀ {pre : List MigratedFundsEntry} {idx : Nat} {seen : List (List Nat × Nat)},
      h ∉ pre.map MigratedFundsEntry.tailTransactionHash →
      lookupTail (seenOf idx pre ++ seen) h = lookupTail seen h := by
  intro pre
  induction pre with
  | nil => intro idx seen _; rfl
  | cons f rest ih =>
    intro idx seen hmem
    simp only [List.map_cons, List.mem_cons, not_or] at hmem
    have hrw : seenOf idx (f :: rest) ++ seen =
        seenOf (idx + 1) rest ++ ((f.tailTransactionHash, idx) :: seen) := by
      simp [seenOf, List.append_assoc]
    rw [hrw, ih hmem.2]
    simp only [lookupTail]
    rw [if_neg fun hh => hmem.1 hh.symm]

theorem lookupTail_seenOf_mem {h : List Nat} :
    ∀ {pre : List MigratedFundsEntry} {idx : Nat} {seen : List (List Nat × Nat)},
      (pre.map MigratedFundsEntry.tailTransactionHash).Nodup →
      h ∈ pre.map MigratedFundsEntry.tailTransactionHash →
      lookupTail (seenOf idx pre ++ seen) h =
        some (idx + idxOf h (pre.map MigratedFundsEntry.tailTransactionHash)) := by
  intro pre
  induction pre with
  | nil => intro idx seen _ hmem; simp at hmem
  | cons f rest ih =>
    intro idx seen hnodup hmem
    simp only [List.map_cons, List.nodup_cons] at hnodup
    have hrw : seenOf idx (f :: rest) ++ seen =
        seenOf (idx + 1) rest ++ ((f.tailTransactionHash, idx) :: seen) := by
      simp [seenOf, List.append_assoc]
    rw [hrw]
    by_cases hh : h = f.tailTransactionHash
    · subst hh
      rw [lookupTail_append_of_not_mem hnodup.1]
      simp [lookupTail, List.map_cons, idxOf]
    · have hmem' : h ∈ rest.map MigratedFundsEntry.tailTransactionHash := by
        simp only [List.map_cons, List.mem_cons] at hmem
        exact hmem.resolve_left hh
      rw [ih hnodup.2 hmem']
      simp only [List.map_cons, idxOf]
      rw [if_neg fun hc => hh hc.symm]
      congr 1
      omega

theorem verifyFundsLoop_append (tokenSupply : Nat) :
    ∀ (pre rest : List MigratedFundsEntry) (seen : List (List Nat × Nat)) (acc idx : Nat),
      (pre.map MigratedFundsEntry.tailTransactionHash).Nodup →
      (∀ f ∈ pre, lookupTail seen f.tailTransactionHash = none) →
      sumsWithin tokenSupply acc pre = true →
      verifyFundsLoop tokenSupply seen acc idx (pre ++ rest) =
        verifyFundsLoop tokenSupply (seenOf idx pre ++ seen)
          (acc + (pre.map MigratedFundsEntry.amount).sum) (idx + pre.length) rest := by
  intro pre
  induction pre with
  | nil => intro rest seen acc idx _ _ _; simp [seenOf]
  | cons f pre' ih =>
    intro rest seen acc idx hnodup hfresh hsums
    simp only [List.map_cons, List.nodup_cons] at hnodup
    simp only [sumsWithin, Bool.and_eq_true, decide_eq_true_eq] at hsums
    obtain ⟨⟨hlt, hle⟩, hsums'⟩ := hsums
    have hlook : lookupTail seen f.tailTransactionHash = none :=
      hfresh f (List.mem_cons_self _ _)
    simp only [List.cons_append, verifyFundsLoop, hlook, List.append_eq]
    rw [if_neg (by omega), if_neg (by omega)]
    have hfresh' : ∀ g ∈ pre', lookupTail ((f.tailTransactionHash, idx) :: seen)
        g.tailTransactionHash = none := by
      intro g hg
      have hne : f.tailTransactionHash ≠ g.tailTransactionHash := by
        intro he
        exact hnodup.1 (he ▸ List.mem_map_of_mem MigratedFundsEntry.tailTransactionHash hg)
      simp [lookupTail, hne, hfresh g (List.mem_cons_of_mem _ hg)]
    rw [ih rest ((f.tailTransactionHash, idx) :: seen) (acc + f.amount) (idx + 1)
      hnodup.2 hfresh' hsums']
    have hseen : seenOf (idx + 1) pre' ++ ((f.tailTransactionHash, idx) :: seen) =
        seenOf idx (f :: pre') ++ seen := by
      simp [seenOf, List.append_assoc]
    rw [hseen]
    congr 1
    · simp only [List.map_cons, List.sum_cons]
      omega
    · simp only [List.length_cons]
      omega

theorem verifyFundsLoop_all_ok (tokenSupply : Nat)
    (funds : List MigratedFundsEntry) (seen : List (List Nat × Nat)) (acc idx : Nat)
    (hnodup : (funds.map MigratedFundsEntry.tailTransactionHash).Nodup)
    (hfresh : ∀ f ∈ funds, lookupTail seen f.tailTransactionHash = none)
    (hsums : sumsWithin tokenSupply acc funds = true) :
    verifyFundsLoop tokenSupply seen acc idx funds = .ok () := by
  have h := verifyFundsLoop_append tokenSupply funds [] seen acc idx hnodup hfresh hsums
  rw [List.append_nil] at h
  rw [h]
  rfl

theorem verifyFundsLoop_sum_fail (tokenSupply : Nat) :
    ∀ (funds : List MigratedFundsEntry) (seen : List (List Nat × Nat)) (acc idx : Nat),
      (∀ f ∈ funds, lookupTail seen f.tailTransactionHash = none) →
      (funds.map MigratedFundsEntry.tailTransactionHash).Nodup →
      sumsWithin tokenSupply acc funds = false →
      ∃ sum, verifyFundsLoop tokenSupply seen acc idx funds =
        .error (.invalidReceiptFundsSum sum) := by
  intro funds
  induction funds with
  | nil => intro seen acc idx _ _ hsums; simp [sumsWithin] at hsums
  | cons f rest ih =>
    intro seen acc idx hfresh hnodup hsums
    simp only [List.map_cons, List.nodup_cons] at hnodup
    have hlook : lookupTail seen f.tailTransactionHash = none :=
      hfresh f (List.mem_cons_self _ _)
    simp only [sumsWithin, Bool.and_eq_false_iff, decide_eq_false_iff_not, not_lt,
      not_le] at hsums
    by_cases hov : 2 ^ 64 ≤ acc + f.amount
    · refine ⟨acc + f.amount, ?_⟩
      simp only [verifyFundsLoop, hlook]
      rw [if_pos hov]
    · by_cases hgt : tokenSupply < acc + f.amount
      · refine ⟨acc + f.amount, ?_⟩
        simp only [verifyFundsLoop, hlook]
        rw [if_neg hov, if_pos hgt]
      · have hrest : sumsWithin tokenSupply (acc + f.amount) rest = false := by
          rcases hsums with h1 | h2
          · rcases h1 with ha | hb
            · exact absurd ha hov
            · exact absurd hb hgt
          · exact h2
        obtain ⟨sum, hsum⟩ := ih ((f.tailTransactionHash, idx) :: seen)
          (acc + f.amount) (idx + 1)
          (fun g hg => by
            have hne : f.tailTransactionHash ≠ g.tailTransactionHash := by
              intro he
              exact hnodup.1
                (he ▸ List.mem_map_of_mem MigratedFundsEntry.tailTransactionHash hg)
            simp [lookupTail, hne, hfresh g (List.mem_cons_of_mem _ hg)])
          hnodup.2 hrest
        refine ⟨sum, ?_⟩
        simp only [verifyFundsLoop, hlook]
        rw [if_neg hov, if_neg hgt]
        exact hsum

theorem sumsWithin_of_le (tokenSupply : Nat) :
    ∀ (funds : List MigratedFundsEntry) (acc : Nat), tokenSupply < 2 ^ 64 →
      acc + (funds.map MigratedFundsEntry.amount).sum ≤ tokenSupply →
      sumsWithin tokenSupply acc funds = true := by
  intro funds
  induction funds with
  | nil => intro acc _ _; rfl
  | cons f rest ih =>
    intro acc hts hle
    simp only [List.map_cons, List.sum_cons] at hle
    simp only [sumsWithin, Bool.and_eq_true, decide_eq_true_eq]
    refine ⟨⟨by omega, by omega⟩, ih (acc + f.amount) hts (by omega)⟩

theorem sumsWithin_false_of_gt (tokenSupply : Nat) :
    ∀ (funds : List MigratedFundsEntry) (acc : Nat), acc ≤ tokenSupply →
      tokenSupply < acc + (funds.map MigratedFundsEntry.amount).sum →
      sumsWithin tokenSupply acc funds = false := by
  intro funds
  induction funds with
  | nil =>
    intro acc hle hgt
    simp only [List.map_nil, List.sum_nil, Nat.add_zero] at hgt
    omega
  | cons f rest ih =>
    intro acc hle hgt
    simp only [List.map_cons, List.sum_cons] at hgt
    simp only [sumsWithin, Bool.and_eq_false_iff, decide_eq_false_iff_not, not_lt,
      not_le]
    by_cases hc : acc + f.amount ≤ tokenSupply
    · exact Or.inr (ih (acc + f.amount) hc (by omega))
    · exact Or.inl (Or.inr (by omega))

/-! ## Order lemmas for the lexicographic comparison -/

theorem lexLt_irrefl : ∀ l : List Nat, lexLt l l = false := by
  intro l
  induction l with
  | nil => rfl
  | cons x xs ih => simp [lexLt, ih]

theorem lexLt_trans : ∀ {a b c : List Nat}, lexLt a b = true → lexLt b c = true →
    lexLt a c = true := by
  intro a
  induction a with
  | nil =>
    intro b c hab hbc
    cases b with
    | nil => simp [lexLt] at hab
    | cons y ys =>
      cases c with
      | nil => simp [lexLt] at hbc
      | cons z zs => simp [lexLt]
  | cons x xs ih =>
    intro b c hab hbc
    cases b with
    | nil => simp [lexLt] at hab
    | cons y ys =>
      cases c with
      | nil => simp [lexLt] at hbc
      | cons z zs =>
        simp only [lexLt] at hab hbc ⊢
        rcases Nat.lt_trichotomy x y with h1 | h1 | h1
        · rcases Nat.lt_trichotomy y z with h2 | h2 | h2
          · rw [if_pos (Nat.lt_trans h1 h2)]
          · subst h2
            rw [if_pos h1]
          · rw [if_neg (by omega), if_neg (by omega)] at hbc
            exact absurd hbc Bool.false_ne_true
        · subst h1
          rw [if_neg (by omega), if_pos rfl] at hab
          rcases Nat.lt_trichotomy x z with h2 | h2 | h2
          · rw [if_pos h2]
          · subst h2
            rw [if_neg (by omega), if_pos rfl] at hbc
            rw [if_neg (by omega), if_pos rfl]
            exact ih hab hbc
          · rw [if_neg (by omega), if_neg (by omega)] at hbc
            exact absurd hbc Bool.false_ne_true
        · rw [if_neg (by omega), if_neg (by omega)] at hab
          exact absurd hab Bool.false_ne_true

theorem isUniqueSorted_iff_chain {α : Type} (lt : α → α → Bool) :
    ∀ l : List α, isUniqueSorted lt l = true ↔
      List.Chain' (fun a b => lt a b = true) l := by
  intro l
  induction l with
  | nil => simp [isUniqueSorted]
  | cons x l' ih =>
    cases l' with
    | nil => simp [isUniqueSorted]
    | cons y rest =>
      rw [List.chain'_cons]
      simp only [isUniqueSorted, Bool.and_eq_true]
      exact and_congr Iff.rfl ih

theorem sorted_keys_pairwise_ne {l : List (List Nat)}
    (h : List.Chain' (fun a b => lexLt a b = true) l) : l.Pairwise (· ≠ ·) := by
  haveI : IsTrans (List Nat) (fun a b => lexLt a b = true) :=
    ⟨fun a b c hab hbc => lexLt_trans hab hbc⟩
  exact (List.chain'_iff_pairwise.mp h).imp fun hab => by
    intro he
    subst he
    rw [lexLt_irrefl] at hab
    exact Bool.false_ne_true hab

/-! ## Claim theorems: milestone payload construction and id -/

/-- C5: `MilestonePayload::new(essence, signatures)` succeeds exactly when
the signature count lies in `[1, 255]`, storing the signatures unchanged;
otherwise it fails with `MilestoneInvalidSignatureCount` carrying the
offending count. -/
theorem milestone_new_signature_count (essence : MilestoneEssence)
    (signatures : List Signature) :
    (1 ≤ signatures.length ∧ signatures.length ≤ 255 →
      MilestonePayload.new essence signatures = .ok ⟨essence, signatures⟩) ∧
    (signatures.length = 0 ∨ 255 < signatures.length →
      MilestonePayload.new essence signatures =
        .error (.milestoneInvalidSignatureCount signatures.length)) := by
  constructor
  · intro h
    simp [MilestonePayload.new, h]
  · intro h
    have hn : ¬ (1 ≤ signatures.length ∧ signatures.length ≤ 255) := by omega
    simp [MilestonePayload.new, hn]

/-- Witness for C5 at a concrete one-signature list and the empty list. -/
theorem milestone_new_signature_count_witness :
    MilestonePayload.new essence0 [sig0] = .ok ⟨essence0, [sig0]⟩ ∧
    MilestonePayload.new essence0 [] = .error (.milestoneInvalidSignatureCount 0) :=
  ⟨(milestone_new_signature_count essence0 [sig0]).1 (by decide),
   (milestone_new_signature_count essence0 []).2 (Or.inl rfl)⟩

/-- C2 counterexample: `MilestonePayload::new` performs no sortedness check,
so a payload built through `new` from two identical signatures violates the
claimed invariant — the very list the decode-time verifier rejects. -/
theorem new_accepts_duplicate_keys :
    MilestonePayload.new essence0 [sig0, sig0] = .ok ⟨essence0, [sig0, sig0]⟩ ∧
    verifySignatures true [sig0, sig0] =
      .error .milestoneSignaturesNotUniqueSorted := by
  constructor
  · decide
  · decide

/-- C2 (amended): the strictly-sorted unique-key invariant is exactly what
the decode-time verifier `verify_signatures` enforces when VERIFY is
enabled — it accepts a signature list if and only if the public keys are
strictly sorted (hence pairwise distinct), rejecting every other list with
`MilestoneSignaturesNotUniqueSorted` — while `MilestonePayload::new`
performs no such check and accepts any `1..=255` signatures unchanged. -/
theorem verify_signatures_sorted_unique (signatures : List Signature) :
    (verifySignatures true signatures = .ok () ↔
      List.Chain' (fun a b => lexLt a b = true)
        (signatures.map Signature.publicKey)) ∧
    (verifySignatures true signatures = .ok () →
      (signatures.map Signature.publicKey).Pairwise (· ≠ ·)) ∧
    (¬ List.Chain' (fun a b => lexLt a b = true)
        (signatures.map Signature.publicKey) →
      verifySignatures true signatures =
        .error .milestoneSignaturesNotUniqueSorted) ∧
    (∀ essence : MilestoneEssence,
      1 ≤ signatures.length → signatures.length ≤ 255 →
      MilestonePayload.new essence signatures = .ok ⟨essence, signatures⟩) := by
  have hiff := isUniqueSorted_iff_chain lexLt (signatures.map Signature.publicKey)
  refine ⟨?_, ?_, ?_, ?_⟩
  · constructor
    · intro hok
      by_cases hs : isUniqueSorted lexLt (signatures.map Signature.publicKey) = true
      · exact hiff.mp hs
      · simp [verifySignatures, hs] at hok
    · intro hchain
      simp [verifySignatures, hiff.mpr hchain]
  · intro hok
    by_cases hs : isUniqueSorted lexLt (signatures.map Signature.publicKey) = true
    · exact sorted_keys_pairwise_ne (hiff.mp hs)
    · simp [verifySignatures, hs] at hok
  · intro hchain
    have hs : ¬ isUniqueSorted lexLt (signatures.map Signature.publicKey) = true :=
      fun hs => hchain (hiff.mp hs)
    simp [verifySignatures, hs]
  · intro essence h1 h2
    simp [MilestonePayload.new, h1, h2]

/-- Witness for C2's amended theorem at a concrete one-signature list. -/
theorem verify_signatures_sorted_unique_witness :
    ([sig0].map Signature.publicKey).Pairwise (· ≠ ·) ∧
    MilestonePayload.new essence0 [sig0] = .ok ⟨essence0, [sig0]⟩ :=
  ⟨(verify_signatures_sorted_unique [sig0]).2.1 (by decide),
   (verify_signatures_sorted_unique [sig0]).2.2.2 essence0 (by decide) (by decide)⟩

/-- C10: `MilestonePayload::id` is determined by the essence alone — any
two payloads with equal essences have equal ids, whatever their signature
lists. -/
theorem milestone_id_essence_only (essenceHash : MilestoneEssence → List Nat)
    (p q : MilestonePayload) (h : p.essence = q.essence) :
    p.id essenceHash = q.id essenceHash := by
  simp [MilestonePayload.id, h]

/-- Witness for C10 with distinct signature lists over the same essence. -/
theorem milestone_id_essence_only_witness :
    MilestonePayload.id (fun _ => []) ⟨essence0, [sig0]⟩ =
      MilestonePayload.id (fun _ => []) ⟨essence0, [sig0, sig0]⟩ :=
  milestone_id_essence_only (fun _ => []) ⟨essence0, [sig0]⟩ ⟨essence0, [sig0, sig0]⟩ rfl

/-! ## Claim theorems: milestone quorum validation -/

theorem validate_loop_first_bad (keys : List (List Nat))
    (parse : List Nat → Option (List Nat))
    (verify : List Nat → List Nat → List Nat → Bool) (h : List Nat)
    (pre : List Signature) (e : Ed25519Signature) (post : List Signature) (idx : Nat)
    (hpre : ∀ s ∈ pre, SigGood keys parse verify h s) :
    (¬ keys.contains (hexEncode e.publicKey) = true →
      validateLoop keys parse verify h idx (pre ++ .ed25519 e :: post) =
        .error (.unapplicablePublicKey (hexEncode e.publicKey))) ∧
    (∀ pk, keys.contains (hexEncode e.publicKey) = true →
      parse e.publicKey = some pk → verify pk e.signature h = false →
      validateLoop keys parse verify h idx (pre ++ .ed25519 e :: post) =
        .error (.invalidSignature (idx + pre.length) (hexEncode e.publicKey))) := by
  constructor
  · intro hnc
    rw [validateLoop_append_good keys parse verify h pre _ idx hpre]
    simp only [validateLoop]
    rw [if_pos hnc]
  · intro pk hc hp hv
    rw [validateLoop_append_good keys parse verify h pre _ idx hpre]
    simp only [validateLoop, hp]
    rw [if_neg fun hn => hn hc, if_pos (by simp [hv])]

/-- C3: `MilestonePayload::validate` checks in order — a zero threshold is
`InvalidMinThreshold`; fewer applicable keys than the threshold is
`InsufficientApplicablePublicKeys`; fewer signatures than the threshold is
`TooFewSignatures`; then, signature by signature in order, a key absent
from the applicable set yields `UnapplicablePublicKey` with that key and a
signature that does not verify against the essence hash yields
`InvalidSignature` with that index and key; if every signature's key is
applicable and every signature verifies, the result is Ok. -/
theorem validate_check_order (parse : List Nat → Option (List Nat))
    (verify : List Nat → List Nat → List Nat → Bool)
    (essenceHash : MilestoneEssence → List Nat) (p : MilestonePayload)
    (keys : List (List Nat)) (minThreshold : Nat) :
    (minThreshold = 0 →
      p.validate parse verify essenceHash keys minThreshold =
        .error .invalidMinThreshold) ∧
    (minThreshold ≠ 0 → keys.length < minThreshold →
      p.validate parse verify essenceHash keys minThreshold =
        .error (.insufficientApplicablePublicKeys keys.length minThreshold)) ∧
    (minThreshold ≠ 0 → ¬ keys.length < minThreshold →
      p.signatures.length < minThreshold →
      p.validate parse verify essenceHash keys minThreshold =
        .error (.tooFewSignatures minThreshold p.signatures.length)) ∧
    (minThreshold ≠ 0 → ¬ keys.length < minThreshold →
      ¬ p.signatures.length < minThreshold →
      (∀ s ∈ p.signatures, SigGood keys parse verify (essenceHash p.essence) s) →
      p.validate parse verify essenceHash keys minThreshold = .ok ()) ∧
    (∀ (pre : List Signature) (e : Ed25519Signature) (post : List Signature),
      minThreshold ≠ 0 → ¬ keys.length < minThreshold →
      ¬ p.signatures.length < minThreshold →
      p.signatures = pre ++ Signature.ed25519 e :: post →
      (∀ s ∈ pre, SigGood keys parse verify (essenceHash p.essence) s) →
      (¬ keys.contains (hexEncode e.publicKey) = true →
        p.validate parse verify essenceHash keys minThreshold =
          .error (.unapplicablePublicKey (hexEncode e.publicKey))) ∧
      (∀ pk, keys.contains (hexEncode e.publicKey) = true →
        parse e.publicKey = some pk →
        verify pk e.signature (essenceHash p.essence) = false →
        p.validate parse verify essenceHash keys minThreshold =
          .error (.invalidSignature pre.length (hexEncode e.publicKey)))) := by
  refine ⟨?_, ?_, ?_, ?_, ?_⟩
  · intro h0
    simp [MilestonePayload.validate, h0]
  · intro h0 hk
    simp [MilestonePayload.validate, h0, hk]
  · intro h0 hk hs
    simp [MilestonePayload.validate, h0, hk, hs]
  · intro h0 hk hs hall
    unfold MilestonePayload.validate
    rw [if_neg h0, if_neg hk, if_neg hs]
    exact validateLoop_all_good keys parse verify _ p.signatures 0 hall
  · intro pre e post h0 hk hs hsplit hpre
    have hfb := validate_loop_first_bad keys parse verify (essenceHash p.essence)
      pre e post 0 hpre
    constructor
    · intro hnc
      unfold MilestonePayload.validate
      rw [if_neg h0, if_neg hk, if_neg hs, hsplit]
      exact hfb.1 hnc
    · intro pk hc hp hv
      unfold MilestonePayload.validate
      rw [if_neg h0, if_neg hk, if_neg hs, hsplit]
      rw [hfb.2 pk hc hp hv]
      rw [Nat.zero_add]

/-- Witness for C3: the zero-threshold error and a fully valid run at a
concrete payload with one signature. -/
theorem validate_check_order_witness :
    MilestonePayload.validate (fun bs => some bs) (fun _ _ _ => true) (fun _ => [])
      ⟨essence0, [sig0]⟩ [] 0 = .error .invalidMinThreshold ∧
    MilestonePayload.validate (fun bs => some bs) (fun _ _ _ => true) (fun _ => [])
      ⟨essence0, [sig0]⟩ [hexEncode (List.replicate 32 0)] 1 = .ok () :=
  ⟨(validate_check_order (fun bs => some bs) (fun _ _ _ => true) (fun _ => [])
      ⟨essence0, [sig0]⟩ [] 0).1 rfl,
   (validate_check_order (fun bs => some bs) (fun _ _ _ => true) (fun _ => [])
      ⟨essence0, [sig0]⟩ [hexEncode (List.replicate 32 0)] 1).2.2.2.1
      (by decide) (by decide) (by decide)
      (fun s hs => by
        have hss : s = sig0 := by simpa using hs
        subst hss
        exact ⟨by decide, List.replicate 32 0, rfl, rfl⟩)⟩

/-- C4: validation short-circuits at the earliest unapplicable or
cryptographically invalid signature: whenever the threshold and cardinality
checks pass, every signature before position `pre.length` is good and the
signature there is not, `validate` returns `UnapplicablePublicKey` or
`InvalidSignature` for that position — whatever valid signatures follow. -/
theorem validate_short_circuit (parse : List Nat → Option (List Nat))
    (verify : List Nat → List Nat → List Nat → Bool)
    (essenceHash : MilestoneEssence → List Nat) (p : MilestonePayload)
    (keys : List (List Nat)) (minThreshold : Nat)
    (pre : List Signature) (e : Ed25519Signature) (post : List Signature)
    (h0 : minThreshold ≠ 0) (hk : ¬ keys.length < minThreshold)
    (hs : ¬ p.signatures.length < minThreshold)
    (hsplit : p.signatures = pre ++ Signature.ed25519 e :: post)
    (hpre : ∀ s ∈ pre, SigGood keys parse verify (essenceHash p.essence) s)
    (hbad : ¬ SigGood keys parse verify (essenceHash p.essence) (.ed25519 e))
    (hparse : ∃ pk, parse e.publicKey = some pk) :
    p.validate parse verify essenceHash keys minThreshold =
      .error (.unapplicablePublicKey (hexEncode e.publicKey)) ∨
    p.validate parse verify essenceHash keys minThreshold =
      .error (.invalidSignature pre.length (hexEncode e.publicKey)) := by
  obtain ⟨pk, hp⟩ := hparse
  have hfb := validate_loop_first_bad keys parse verify (essenceHash p.essence)
    pre e post 0 hpre
  by_cases hc : keys.contains (hexEncode e.publicKey) = true
  · right
    by_cases hv : verify pk e.signature (essenceHash p.essence) = true
    · exact absurd ⟨hc, pk, hp, hv⟩ hbad
    · unfold MilestonePayload.validate
      rw [if_neg h0, if_neg hk, if_neg hs, hsplit]
      rw [hfb.2 pk hc hp (by simpa using hv)]
      rw [Nat.zero_add]
  · left
    unfold MilestonePayload.validate
    rw [if_neg h0, if_neg hk, if_neg hs, hsplit]
    exact hfb.1 hc

/-- Witness for C4: a two-signature payload whose first signature is from a
key outside the applicable set, with a valid signature after it. -/
theorem validate_short_circuit_witness :
    MilestonePayload.validate (fun bs => some bs) (fun _ _ _ => true) (fun _ => [])
      ⟨essence0, [sig0, sig0]⟩ [hexEncode (List.replicate 32 1),
        hexEncode (List.replicate 32 2)] 1 =
      .error (.unapplicablePublicKey (hexEncode (List.replicate 32 0))) ∨
    MilestonePayload.validate (fun bs => some bs) (fun _ _ _ => true) (fun _ => [])
      ⟨essence0, [sig0, sig0]⟩ [hexEncode (List.replicate 32 1),
        hexEncode (List.replicate 32 2)] 1 =
      .error (.invalidSignature 0 (hexEncode (List.replicate 32 0))) :=
  validate_short_circuit (fun bs => some bs) (fun _ _ _ => true) (fun _ => [])
    ⟨essence0, [sig0, sig0]⟩
    [hexEncode (List.replicate 32 1), hexEncode (List.replicate 32 2)] 1
    [] ⟨List.replicate 32 0, List.replicate 64 0⟩ [sig0]
    (by decide) (by decide) (by decide) rfl
    (fun s hs => absurd hs (List.not_mem_nil s))
    (fun hgood => absurd hgood.1 (by decide))
    ⟨List.replicate 32 0, rfl⟩

/-! ## Claim theorems: receipt milestone option -/

theorem exceptBind_ok_inv {ε α β : Type} {x : Except ε α} {f : α → Except ε β} {b : β}
    (h : (x >>= f) = .ok b) : ∃ a, x = .ok a ∧ f a = .ok b := by
  cases x with
  | ok a => exact ⟨a, rfl, h⟩
  | error e => exact absurd h (by simp [Bind.bind, Except.bind])

theorem receipt_new_ok_inv {migratedAt : Nat} {last : Bool}
    {funds : List MigratedFundsEntry} {transaction : TreasuryTransactionPayload}
    {tokenSupply : Nat} {r : ReceiptMilestoneOption}
    (h : ReceiptMilestoneOption.new migratedAt last funds transaction tokenSupply =
      .ok r) :
    r = ⟨migratedAt, last, funds, .treasuryTransaction transaction⟩ := by
  unfold ReceiptMilestoneOption.new at h
  by_cases hc : 1 ≤ funds.length ∧ funds.length ≤ 128
  · rw [if_pos hc] at h
    cases hvf : verifyFunds true funds tokenSupply with
    | error e =>
      rw [hvf] at h
      exact absurd h (by simp)
    | ok u =>
      cases u
      rw [hvf] at h
      exact (Except.ok.inj h).symm
  · rw [if_neg hc] at h
    exact absurd h (by simp)

/-- C6: `ReceiptMilestoneOption::new` enforces the funds-list invariants
with the matching typed error: entries not strictly sorted and unique by
serialized form give `ReceiptFundsNotUniqueSorted`; a repeated
tail-transaction hash gives `TailTransactionHashNotUnique` with both
colliding positions; a cumulative amount (overflow-checked) beyond the
token supply gives `InvalidReceiptFundsSum`; otherwise, with `1..=128`
entries and a treasury transaction, construction succeeds. -/
theorem receipt_new_funds_checks (migratedAt : Nat) (last : Bool)
    (funds : List MigratedFundsEntry) (t : TreasuryTransactionPayload)
    (tokenSupply : Nat) (hlo : 1 ≤ funds.length) (hhi : funds.length ≤ 128) :
    (¬ isUniqueSorted lexLt (funds.map MigratedFundsEntry.pack) = true →
      ReceiptMilestoneOption.new migratedAt last funds t tokenSupply =
        .error .receiptFundsNotUniqueSorted) ∧
    (∀ (pre : List MigratedFundsEntry) (f : MigratedFundsEntry)
        (post : List MigratedFundsEntry),
      isUniqueSorted lexLt (funds.map MigratedFundsEntry.pack) = true →
      funds = pre ++ f :: post →
      (pre.map MigratedFundsEntry.tailTransactionHash).Nodup →
      f.tailTransactionHash ∈ pre.map MigratedFundsEntry.tailTransactionHash →
      sumsWithin tokenSupply 0 pre = true →
      ReceiptMilestoneOption.new migratedAt last funds t tokenSupply =
        .error (.tailTransactionHashNotUnique
          (idxOf f.tailTransactionHash (pre.map MigratedFundsEntry.tailTransactionHash))
          pre.length)) ∧
    (isUniqueSorted lexLt (funds.map MigratedFundsEntry.pack) = true →
      (funds.map MigratedFundsEntry.tailTransactionHash).Nodup →
      tokenSupply < (funds.map MigratedFundsEntry.amount).sum →
      ∃ sum, ReceiptMilestoneOption.new migratedAt last funds t tokenSupply =
        .error (.invalidReceiptFundsSum sum)) ∧
    (isUniqueSorted lexLt (funds.map MigratedFundsEntry.pack) = true →
      (funds.map MigratedFundsEntry.tailTransactionHash).Nodup →
      tokenSupply < 2 ^ 64 →
      (funds.map MigratedFundsEntry.amount).sum ≤ tokenSupply →
      ReceiptMilestoneOption.new migratedAt last funds t tokenSupply =
        .ok ⟨migratedAt, last, funds, .treasuryTransaction t⟩) := by
  have hcount : 1 ≤ funds.length ∧ funds.length ≤ 128 := ⟨hlo, hhi⟩
  refine ⟨?_, ?_, ?_, ?_⟩
  · intro hns
    unfold ReceiptMilestoneOption.new
    rw [if_pos hcount]
    have hvf : verifyFunds true funds tokenSupply =
        .error .receiptFundsNotUniqueSorted := by
      unfold verifyFunds
      rw [if_pos rfl, if_pos hns]
    rw [hvf]
  · intro pre f post hsorted hsplit hnodup hmem hsums
    unfold ReceiptMilestoneOption.new
    rw [if_pos hcount]
    have hvf : verifyFunds true funds tokenSupply =
        .error (.tailTransactionHashNotUnique
          (idxOf f.tailTransactionHash
            (pre.map MigratedFundsEntry.tailTransactionHash)) pre.length) := by
      unfold verifyFunds
      rw [if_pos rfl, if_neg (by simp [hsorted]), hsplit]
      rw [verifyFundsLoop_append tokenSupply pre (f :: post) [] 0 0 hnodup
        (fun _ _ => rfl) hsums]
      simp only [verifyFundsLoop, lookupTail_seenOf_mem hnodup hmem, Nat.zero_add]
    rw [hvf]
  · intro hsorted hnodup hsum
    have hfalse : sumsWithin tokenSupply 0 funds = false :=
      sumsWithin_false_of_gt tokenSupply funds 0 (Nat.zero_le _) (by omega)
    obtain ⟨sum, hloop⟩ := verifyFundsLoop_sum_fail tokenSupply funds [] 0 0
      (fun _ _ => rfl) hnodup hfalse
    refine ⟨sum, ?_⟩
    unfold ReceiptMilestoneOption.new
    rw [if_pos hcount]
    have hvf : verifyFunds true funds tokenSupply =
        .error (.invalidReceiptFundsSum sum) := by
      unfold verifyFunds
      rw [if_pos rfl, if_neg (by simp [hsorted])]
      exact hloop
    rw [hvf]
  · intro hsorted hnodup hts hsum
    have htrue : sumsWithin tokenSupply 0 funds = true :=
      sumsWithin_of_le tokenSupply funds 0 hts (by omega)
    have hloop := verifyFundsLoop_all_ok tokenSupply funds [] 0 0 hnodup
      (fun _ _ => rfl) htrue
    unfold ReceiptMilestoneOption.new
    rw [if_pos hcount]
    have hvf : verifyFunds true funds tokenSupply = .ok () := by
      unfold verifyFunds
      rw [if_pos rfl, if_neg (by simp [hsorted])]
      exact hloop
    rw [hvf]

/-- Witness for C6: success on a one-entry list and the sorted-unique
rejection on a duplicated entry. -/
theorem receipt_new_funds_checks_witness :
    ReceiptMilestoneOption.new 0 false [entry0] tt0 1000000 =
      .ok ⟨0, false, [entry0], .treasuryTransaction tt0⟩ ∧
    ReceiptMilestoneOption.new 0 false [entry0, entry0] tt0 1000000 =
      .error .receiptFundsNotUniqueSorted :=
  ⟨(receipt_new_funds_checks 0 false [entry0] tt0 1000000
      (by decide) (by decide)).2.2.2 (by decide) (by decide) (by decide) (by decide),
   (receipt_new_funds_checks 0 false [entry0, entry0] tt0 1000000
      (by decide) (by decide)).1 (by decide)⟩

/-- C9: along every construction path — `new`, `try_from_dto`,
`try_from_dto_unverified`, and wire decoding (whose verifier
`verify_transaction` runs with verification enabled) — the embedded payload
is a treasury transaction, so the accessor returns it and its
`unreachable!()` branch (modelled as `none`) is never taken. -/
theorem receipt_transaction_always_treasury (r : ReceiptMilestoneOption)
    (h : ReceiptConstructed r) :
    ∃ t, r.transaction = .treasuryTransaction t ∧ r.transactionOrPanic = some t := by
  cases h with
  | viaNew migratedAt last funds transaction tokenSupply r hnew =>
    obtain rfl := receipt_new_ok_inv hnew
    exact ⟨transaction, rfl, rfl⟩
  | viaTryFromDto dto tokenSupply r hdto =>
    unfold ReceiptMilestoneOption.tryFromDto at hdto
    obtain ⟨funds, _, h2⟩ := exceptBind_ok_inv hdto
    cases hd : dto.transaction with
    | treasuryTransaction tdto =>
      rw [hd] at h2
      dsimp only at h2
      obtain ⟨t, _, h3⟩ := exceptBind_ok_inv h2
      obtain rfl := receipt_new_ok_inv h3
      exact ⟨t, rfl, rfl⟩
    | taggedData tag data =>
      rw [hd] at h2
      dsimp only at h2
      obtain ⟨t, ht, _⟩ := exceptBind_ok_inv h2
      exact absurd ht (by simp)
  | viaTryFromDtoUnverified dto r hdto =>
    unfold ReceiptMilestoneOption.tryFromDtoUnverified at hdto
    obtain ⟨funds, _, h2⟩ := exceptBind_ok_inv hdto
    by_cases hc : 1 ≤ funds.length ∧ funds.length ≤ 128
    · rw [if_pos hc] at h2
      cases hd : dto.transaction with
      | treasuryTransaction tdto =>
        rw [hd] at h2
        obtain ⟨t, _, h3⟩ := exceptBind_ok_inv h2
        obtain rfl := (Except.ok.inj h3).symm
        exact ⟨t, rfl, rfl⟩
      | taggedData tag data =>
        rw [hd] at h2
        exact absurd h2 (by simp)
    · rw [if_neg hc] at h2
      exact absurd h2 (by simp)
  | viaDecode r hver =>
    cases hd : r.transaction with
    | treasuryTransaction t =>
      exact ⟨t, rfl, by simp [ReceiptMilestoneOption.transactionOrPanic, hd]⟩
    | taggedData tag data =>
      rw [show verifyTransaction true r.transaction =
          verifyTransaction true (.taggedData tag data) from by rw [hd]] at hver
      exact absurd hver (by simp [verifyTransaction])

/-- Witness for C9 at a receipt obtained through `new`. -/
theorem receipt_transaction_always_treasury_witness :
    ∃ t, (⟨0, false, [entry0], .treasuryTransaction tt0⟩ :
        ReceiptMilestoneOption).transaction = .treasuryTransaction t ∧
      (⟨0, false, [entry0], .treasuryTransaction tt0⟩ :
        ReceiptMilestoneOption).transactionOrPanic = some t :=
  receipt_transaction_always_treasury _
    (.viaNew 0 false [entry0] tt0 1000000 _ (by decide))

/-! ## Lemmas about the duplicate scans of the essence builder -/

theorem utxoIds_nil : utxoIds [] = [] := rfl

theorem utxoIds_cons_utxo (oid : OutputId) (rest : List Input) :
    utxoIds (.utxo oid :: rest) = oid :: utxoIds rest := rfl

theorem utxoIds_cons_treasury (m : List Nat) (rest : List Input) :
    utxoIds (.treasury m :: rest) = utxoIds rest := rfl

theorem nonNullChainIds_nil : nonNullChainIds [] = [] := rfl

theorem nonNullChainIds_cons_none {o : Output} (rest : List Output)
    (h : o.chainId = none) :
    nonNullChainIds (o :: rest) = nonNullChainIds rest := by
  simp [nonNullChainIds, List.filterMap_cons, h]

theorem nonNullChainIds_cons_null {o : Output} {cid : ChainId} (rest : List Output)
    (h : o.chainId = some cid) (hn : cid.isNull = true) :
    nonNullChainIds (o :: rest) = nonNullChainIds rest := by
  simp [nonNullChainIds, List.filterMap_cons, h, List.filter_cons, hn]

theorem nonNullChainIds_cons_nonnull {o : Output} {cid : ChainId} (rest : List Output)
    (h : o.chainId = some cid) (hn : cid.isNull = false) :
    nonNullChainIds (o :: rest) = cid :: nonNullChainIds rest := by
  simp [nonNullChainIds, List.filterMap_cons, h, List.filter_cons, hn]

theorem findDupUtxo_none_of_nodup :
    ∀ (inputs : List Input) (seen : List OutputId),
      (utxoIds inputs).Nodup → (∀ oid ∈ utxoIds inputs, oid ∉ seen) →
      findDupUtxo seen inputs = none := by
  intro inputs
  induction inputs with
  | nil => intro seen _ _; rfl
  | cons i rest ih =>
    intro seen hnodup hfresh
    cases i with
    | utxo oid =>
      rw [utxoIds_cons_utxo, List.nodup_cons] at hnodup
      rw [utxoIds_cons_utxo] at hfresh
      have hmemseen : oid ∉ seen := hfresh oid (List.mem_cons_self _ _)
      simp only [findDupUtxo]
      rw [if_neg fun h => hmemseen (List.mem_of_elem_eq_true h)]
      refine ih (oid :: seen) hnodup.2 ?_
      intro o ho
      simp only [List.mem_cons, not_or]
      exact ⟨fun he => hnodup.1 (he ▸ ho),
        hfresh o (List.mem_cons_of_mem _ ho)⟩
    | treasury mid =>
      rw [utxoIds_cons_treasury] at hnodup hfresh
      exact ih seen hnodup hfresh

theorem findDupUtxo_isSome :
    ∀ (inputs : List Input) (seen : List OutputId),
      (¬ (utxoIds inputs).Nodup ∨ ∃ oid ∈ utxoIds inputs, oid ∈ seen) →
      ∃ o, findDupUtxo seen inputs = some o := by
  intro inputs
  induction inputs with
  | nil =>
    intro seen h
    rcases h with h | ⟨oid, hmem, _⟩
    · exact absurd List.nodup_nil h
    · exact absurd hmem (List.not_mem_nil oid)
  | cons i rest ih =>
    intro seen h
    cases i with
    | utxo oid =>
      by_cases hc : oid ∈ seen
      · refine ⟨oid, ?_⟩
        simp only [findDupUtxo]
        rw [if_pos (List.elem_eq_true_of_mem hc)]
      · simp only [findDupUtxo]
        rw [if_neg fun hh => hc (List.mem_of_elem_eq_true hh)]
        refine ih (oid :: seen) ?_
        rw [utxoIds_cons_utxo] at h
        rcases h with h | ⟨o, hmem, hseen⟩
        · rw [List.nodup_cons] at h
          by_cases hmem : oid ∈ utxoIds rest
          · exact Or.inr ⟨oid, hmem, List.mem_cons_self _ _⟩
          · exact Or.inl fun hn => h ⟨hmem, hn⟩
        · rcases List.mem_cons.mp hmem with rfl | hmem'
          · exact absurd hseen hc
          · exact Or.inr ⟨o, hmem', List.mem_cons_of_mem _ hseen⟩
    | treasury mid =>
      simp only [findDupUtxo]
      refine ih seen ?_
      rw [utxoIds_cons_treasury] at h
      exact h

theorem findDupChain_none_of_nodup :
    ∀ (outputs : List Output) (seen : List ChainId),
      (nonNullChainIds outputs).Nodup → (∀ c ∈ nonNullChainIds outputs, c ∉ seen) →
      findDupChain seen outputs = none := by
  intro outputs
  induction outputs with
  | nil => intro seen _ _; rfl
  | cons o rest ih =>
    intro seen hnodup hfresh
    cases hcid : o.chainId with
    | none =>
      rw [nonNullChainIds_cons_none rest hcid] at hnodup hfresh
      simp only [findDupChain, hcid]
      exact ih seen hnodup hfresh
    | some cid =>
      cases hnull : cid.isNull with
      | true =>
        rw [nonNullChainIds_cons_null rest hcid hnull] at hnodup hfresh
        simp only [findDupChain, hcid]
        rw [if_neg fun hAnd => hAnd.1 hnull, if_pos hnull]
        exact ih seen hnodup hfresh
      | false =>
        rw [nonNullChainIds_cons_nonnull rest hcid hnull, List.nodup_cons] at hnodup
        rw [nonNullChainIds_cons_nonnull rest hcid hnull] at hfresh
        have hmemseen : cid ∉ seen := hfresh cid (List.mem_cons_self _ _)
        simp only [findDupChain, hcid]
        rw [if_neg fun hAnd => hmemseen (List.mem_of_elem_eq_true hAnd.2),
          if_neg (by simp [hnull])]
        refine ih (cid :: seen) hnodup.2 ?_
        intro c hcmem
        simp only [List.mem_cons, not_or]
        exact ⟨fun he => hnodup.1 (he ▸ hcmem),
          hfresh c (List.mem_cons_of_mem _ hcmem)⟩

theorem findDupChain_isSome :
    ∀ (outputs : List Output) (seen : List ChainId),
      (¬ (nonNullChainIds outputs).Nodup ∨ ∃ c ∈ nonNullChainIds outputs, c ∈ seen) →
      ∃ c, findDupChain seen outputs = some c := by
  intro outputs
  induction outputs with
  | nil =>
    intro seen h
    rcases h with h | ⟨c, hmem, _⟩
    · exact absurd List.nodup_nil h
    · exact absurd hmem (List.not_mem_nil c)
  | cons o rest ih =>
    intro seen h
    cases hcid : o.chainId with
    | none =>
      rw [nonNullChainIds_cons_none rest hcid] at h
      simp only [findDupChain, hcid]
      exact ih seen h
    | some cid =>
      cases hnull : cid.isNull with
      | true =>
        rw [nonNullChainIds_cons_null rest hcid hnull] at h
        simp only [findDupChain, hcid]
        rw [if_neg fun hAnd => hAnd.1 hnull, if_pos hnull]
        exact ih seen h
      | false =>
        rw [nonNullChainIds_cons_nonnull rest hcid hnull] at h
        by_cases hc : cid ∈ seen
        · refine ⟨cid, ?_⟩
          simp only [findDupChain, hcid]
          rw [if_pos ⟨by simp [hnull], List.elem_eq_true_of_mem hc⟩]
        · simp only [findDupChain, hcid]
          rw [if_neg fun hAnd => hc (List.mem_of_elem_eq_true hAnd.2),
            if_neg (by simp [hnull])]
          refine ih (cid :: seen) ?_
          rcases h with h | ⟨c, hmem, hseen⟩
          · rw [List.nodup_cons] at h
            by_cases hmem : cid ∈ nonNullChainIds rest
            · exact Or.inr ⟨cid, hmem, List.mem_cons_self _ _⟩
            · exact Or.inl fun hn => h ⟨hmem, hn⟩
          · rcases List.mem_cons.mp hmem with rfl | hmem'
            · exact absurd hseen hc
            · exact Or.inr ⟨c, hmem', List.mem_cons_of_mem _ hseen⟩

theorem findDupChain_some_count :
    ∀ (outputs : List Output) (seen : List ChainId) (c : ChainId),
      findDupChain seen outputs = some c →
      c ∈ nonNullChainIds outputs ∧
        (c ∈ seen ∨ 2 ≤ (nonNullChainIds outputs).count c) := by
  intro outputs
  induction outputs with
  | nil => intro seen c h; exact absurd h (by simp [findDupChain])
  | cons o rest ih =>
    intro seen c h
    cases hcid : o.chainId with
    | none =>
      simp only [findDupChain, hcid] at h
      rw [nonNullChainIds_cons_none rest hcid]
      exact ih seen c h
    | some cid =>
      simp only [findDupChain, hcid] at h
      cases hnull : cid.isNull with
      | true =>
        rw [if_neg fun hAnd => hAnd.1 hnull, if_pos hnull] at h
        rw [nonNullChainIds_cons_null rest hcid hnull]
        exact ih seen c h
      | false =>
        by_cases hc : cid ∈ seen
        · rw [if_pos ⟨by simp [hnull], List.elem_eq_true_of_mem hc⟩] at h
          obtain rfl := Option.some.inj h
          rw [nonNullChainIds_cons_nonnull rest hcid hnull]
          exact ⟨List.mem_cons_self _ _, Or.inl hc⟩
        · rw [if_neg fun hAnd => hc (List.mem_of_elem_eq_true hAnd.2),
            if_neg (by simp [hnull])] at h
          obtain ⟨hmem, hrest⟩ := ih (cid :: seen) c h
          rw [nonNullChainIds_cons_nonnull rest hcid hnull]
          refine ⟨List.mem_cons_of_mem _ hmem, ?_⟩
          rcases hrest with hseen | hcount
          · rcases List.mem_cons.mp hseen with rfl | hseen'
            · right
              have h1 : 1 ≤ (nonNullChainIds rest).count c :=
                List.count_pos_iff.mpr hmem
              simp only [List.count_cons_self]
              omega
            · exact Or.inl hseen'
          · right
            rw [List.count_cons]
            omega

theorem not_nodup_of_two {α : Type} (a : α) (pre mid suf : List α) :
    ¬ (pre ++ (a :: (mid ++ (a :: suf)))).Nodup := by
  intro h
  have h2 := h.of_append_right
  rw [List.nodup_cons] at h2
  exact h2.1 (List.mem_append_right mid (List.mem_cons_self a suf))

theorem utxoIds_append (l1 l2 : List Input) :
    utxoIds (l1 ++ l2) = utxoIds l1 ++ utxoIds l2 := by
  simp [utxoIds, List.filterMap_append]

theorem nonNullChainIds_append (l1 l2 : List Output) :
    nonNullChainIds (l1 ++ l2) = nonNullChainIds l1 ++ nonNullChainIds l2 := by
  simp [nonNullChainIds, List.filterMap_append, List.filter_append]

theorem finish_ok_of_checks (pp : ProtocolParameters) (networkId : Nat)
    (inputsCommitment : List Nat) (inputs : List Input) (outputs : List Output)
    (payload : Option Payload)
    (hi1 : 1 ≤ inputs.length) (hi2 : inputs.length ≤ 128)
    (ho1 : 1 ≤ outputs.length) (ho2 : outputs.length ≤ 128)
    (hdup : (utxoIds inputs).Nodup)
    (hkind : ∀ i ∈ inputs, i.kind = 0)
    (hok : ∀ o ∈ outputs, ¬ o.kind = 2)
    (hsum1 : (outputs.map Output.amount).sum ≤ pp.tokenSupply)
    (hsum2 : (outputs.map Output.amount).sum < 2 ^ 64)
    (hchain : (nonNullChainIds outputs).Nodup)
    (hpayload : ∀ q, payload = some q → q.kind = 5) :
    RegularTransactionEssence.finish pp networkId inputsCommitment inputs outputs
      payload = .ok ⟨networkId, inputsCommitment, inputs, outputs, payload⟩ := by
  unfold RegularTransactionEssence.finish
  rw [if_neg (by omega), if_neg (by omega)]
  rw [findDupUtxo_none_of_nodup inputs [] hdup fun o _ => List.not_mem_nil o]
  rw [List.find?_eq_none.mpr fun i hi => by simp [hkind i hi]]
  rw [List.find?_eq_none.mpr fun o ho => by simp [hok o ho]]
  rw [if_neg fun hn => hn ⟨hsum1, hsum2⟩]
  rw [findDupChain_none_of_nodup outputs [] hchain fun c _ => List.not_mem_nil c]
  cases payload with
  | none => rfl
  | some q => simp [hpayload q rfl]

theorem finish_eq_duputxo (pp : ProtocolParameters) (networkId : Nat)
    (inputsCommitment : List Nat) (inputs : List Input) (outputs : List Output)
    (payload : Option Payload)
    (hi1 : 1 ≤ inputs.length) (hi2 : inputs.length ≤ 128)
    (ho1 : 1 ≤ outputs.length) (ho2 : outputs.length ≤ 128)
    (hdup : ¬ (utxoIds inputs).Nodup) :
    ∃ oid, RegularTransactionEssence.finish pp networkId inputsCommitment inputs
      outputs payload = .error (.duplicateUtxo oid) := by
  obtain ⟨oid, hfind⟩ := findDupUtxo_isSome inputs [] (Or.inl hdup)
  refine ⟨oid, ?_⟩
  unfold RegularTransactionEssence.finish
  rw [if_neg (by omega), if_neg (by omega), hfind]

theorem finish_eq_dupchain (pp : ProtocolParameters) (networkId : Nat)
    (inputsCommitment : List Nat) (inputs : List Input) (outputs : List Output)
    (payload : Option Payload)
    (hi1 : 1 ≤ inputs.length) (hi2 : inputs.length ≤ 128)
    (ho1 : 1 ≤ outputs.length) (ho2 : outputs.length ≤ 128)
    (hdup : (utxoIds inputs).Nodup)
    (hkind : ∀ i ∈ inputs, i.kind = 0)
    (hok : ∀ o ∈ outputs, ¬ o.kind = 2)
    (hsum1 : (outputs.map Output.amount).sum ≤ pp.tokenSupply)
    (hsum2 : (outputs.map Output.amount).sum < 2 ^ 64)
    (hchainDup : ¬ (nonNullChainIds outputs).Nodup) :
    ∃ c, RegularTransactionEssence.finish pp networkId inputsCommitment inputs
        outputs payload = .error (.duplicateOutputChain c) ∧
      2 ≤ (nonNullChainIds outputs).count c := by
  obtain ⟨c, hfind⟩ := findDupChain_isSome outputs [] (Or.inl hchainDup)
  have hcount := findDupChain_some_count outputs [] c hfind
  refine ⟨c, ?_, ?_⟩
  · unfold RegularTransactionEssence.finish
    rw [if_neg (by omega), if_neg (by omega)]
    rw [findDupUtxo_none_of_nodup inputs [] hdup fun o _ => List.not_mem_nil o]
    rw [List.find?_eq_none.mpr fun i hi => by simp [hkind i hi]]
    rw [List.find?_eq_none.mpr fun o ho => by simp [hok o ho]]
    rw [if_neg fun hn => hn ⟨hsum1, hsum2⟩]
    rw [hfind]
  · rcases hcount.2 with hseen | hcnt
    · exact absurd hseen (List.not_mem_nil c)
    · exact hcnt

/-! ## Claim theorems: regular transaction essence -/

/-- C7: finishing the essence builder enforces the count bounds — with 0 or
129 inputs it fails with `InvalidInputCount` carrying the observed count,
with 0 or 129 outputs it fails with `InvalidOutputCount` carrying the
observed count, and counts of 1 through 128, all other validation passing,
are accepted. -/
theorem essence_count_bounds (pp : ProtocolParameters) (networkId : Nat)
    (inputsCommitment : List Nat) (inputs : List Input) (outputs : List Output)
    (payload : Option Payload) :
    (inputs.length = 0 →
      RegularTransactionEssence.finish pp networkId inputsCommitment inputs outputs
        payload = .error (.invalidInputCount 0)) ∧
    (inputs.length = 129 →
      RegularTransactionEssence.finish pp networkId inputsCommitment inputs outputs
        payload = .error (.invalidInputCount 129)) ∧
    (1 ≤ inputs.length → inputs.length ≤ 128 → outputs.length = 0 →
      RegularTransactionEssence.finish pp networkId inputsCommitment inputs outputs
        payload = .error (.invalidOutputCount 0)) ∧
    (1 ≤ inputs.length → inputs.length ≤ 128 → outputs.length = 129 →
      RegularTransactionEssence.finish pp networkId inputsCommitment inputs outputs
        payload = .error (.invalidOutputCount 129)) ∧
    (1 ≤ inputs.length → inputs.length ≤ 128 → 1 ≤ outputs.length →
      outputs.length ≤ 128 → (utxoIds inputs).Nodup → (∀ i ∈ inputs, i.kind = 0) →
      (∀ o ∈ outputs, ¬ o.kind = 2) →
      (outputs.map Output.amount).sum ≤ pp.tokenSupply →
      (outputs.map Output.amount).sum < 2 ^ 64 →
      (nonNullChainIds outputs).Nodup →
      (∀ q, payload = some q → q.kind = 5) →
      RegularTransactionEssence.finish pp networkId inputsCommitment inputs outputs
        payload = .ok ⟨networkId, inputsCommitment, inputs, outputs, payload⟩) := by
  refine ⟨?_, ?_, ?_, ?_, ?_⟩
  · intro h
    unfold RegularTransactionEssence.finish
    rw [if_pos (by omega), h]
  · intro h
    unfold RegularTransactionEssence.finish
    rw [if_pos (by omega), h]
  · intro hi1 hi2 h
    unfold RegularTransactionEssence.finish
    rw [if_neg (by omega), if_pos (by omega), h]
  · intro hi1 hi2 h
    unfold RegularTransactionEssence.finish
    rw [if_neg (by omega), if_pos (by omega), h]
  · intro hi1 hi2 ho1 ho2 hdup hkind hok hsum1 hsum2 hchain hpayload
    exact finish_ok_of_checks pp networkId inputsCommitment inputs outputs payload
      hi1 hi2 ho1 ho2 hdup hkind hok hsum1 hsum2 hchain hpayload

/-- Witness for C7: a well-formed one-input one-output essence succeeds and
an essence with no inputs is rejected with `InvalidInputCount 0`. -/
theorem essence_count_bounds_witness :
    RegularTransactionEssence.finish ⟨1000000, 2, 0⟩ 0 []
      [.utxo ⟨List.replicate 32 0, 0⟩] [.basic 100] none =
      .ok ⟨0, [], [.utxo ⟨List.replicate 32 0, 0⟩], [.basic 100], none⟩ ∧
    RegularTransactionEssence.finish ⟨1000000, 2, 0⟩ 0 [] [] [.basic 100] none =
      .error (.invalidInputCount 0) :=
  ⟨(essence_count_bounds ⟨1000000, 2, 0⟩ 0 [] [.utxo ⟨List.replicate 32 0, 0⟩]
      [.basic 100] none).2.2.2.2 (by decide) (by decide) (by decide) (by decide)
      (by decide) (by decide) (by decide) (by decide) (by decide) (by decide)
      (fun q h => Option.noConfusion h),
   (essence_count_bounds ⟨1000000, 2, 0⟩ 0 [] [] [.basic 100] none).1 rfl⟩

/-- C8: within one essence, two inputs referencing the same output id make
the builder fail with `DuplicateUtxo`; two outputs carrying the same
non-null chain id make it fail with `DuplicateOutputChain` carrying a chain
id duplicated among the outputs; and outputs carrying the null chain id are
exempt — an essence containing two null-chain-id outputs is accepted when
everything else passes. -/
theorem essence_duplicate_checks (pp : ProtocolParameters) (networkId : Nat)
    (inputsCommitment : List Nat) (inputs : List Input) (outputs : List Output)
    (payload : Option Payload) :
    (∀ (pre mid suf : List Input) (oid : OutputId),
      1 ≤ inputs.length → inputs.length ≤ 128 → 1 ≤ outputs.length →
      outputs.length ≤ 128 →
      inputs = pre ++ (.utxo oid :: (mid ++ (.utxo oid :: suf))) →
      ∃ o, RegularTransactionEssence.finish pp networkId inputsCommitment inputs
        outputs payload = .error (.duplicateUtxo o)) ∧
    (∀ (pre mid suf : List Output) (o1 o2 : Output) (c : ChainId),
      1 ≤ inputs.length → inputs.length ≤ 128 → 1 ≤ outputs.length →
      outputs.length ≤ 128 → (utxoIds inputs).Nodup →
      (∀ i ∈ inputs, i.kind = 0) → (∀ o ∈ outputs, ¬ o.kind = 2) →
      (outputs.map Output.amount).sum ≤ pp.tokenSupply →
      (outputs.map Output.amount).sum < 2 ^ 64 →
      outputs = pre ++ (o1 :: (mid ++ (o2 :: suf))) →
      o1.chainId = some c → o2.chainId = some c → c.isNull = false →
      ∃ c', RegularTransactionEssence.finish pp networkId inputsCommitment inputs
          outputs payload = .error (.duplicateOutputChain c') ∧
        2 ≤ (nonNullChainIds outputs).count c') ∧
    ((∃ o1 ∈ outputs, ∃ o2 ∈ outputs, ∃ c1 c2, o1.chainId = some c1 ∧
        c1.isNull = true ∧ o2.chainId = some c2 ∧ c2.isNull = true) →
      1 ≤ inputs.length → inputs.length ≤ 128 → 1 ≤ outputs.length →
      outputs.length ≤ 128 → (utxoIds inputs).Nodup →
      (∀ i ∈ inputs, i.kind = 0) → (∀ o ∈ outputs, ¬ o.kind = 2) →
      (outputs.map Output.amount).sum ≤ pp.tokenSupply →
      (outputs.map Output.amount).sum < 2 ^ 64 →
      (nonNullChainIds outputs).Nodup →
      (∀ q, payload = some q → q.kind = 5) →
      RegularTransactionEssence.finish pp networkId inputsCommitment inputs outputs
        payload = .ok ⟨networkId, inputsCommitment, inputs, outputs, payload⟩) := by
  refine ⟨?_, ?_, ?_⟩
  · intro pre mid suf oid hi1 hi2 ho1 ho2 hsplit
    have hdup : ¬ (utxoIds inputs).Nodup := by
      rw [hsplit, utxoIds_append, utxoIds_cons_utxo, utxoIds_append,
        utxoIds_cons_utxo]
      exact not_nodup_of_two oid (utxoIds pre) (utxoIds mid) (utxoIds suf)
    exact finish_eq_duputxo pp networkId inputsCommitment inputs outputs payload
      hi1 hi2 ho1 ho2 hdup
  · intro pre mid suf o1 o2 c hi1 hi2 ho1 ho2 hdup hkind hok hsum1 hsum2 hsplit
      hc1 hc2 hnull
    have hchainDup : ¬ (nonNullChainIds outputs).Nodup := by
      rw [hsplit, nonNullChainIds_append, nonNullChainIds_cons_nonnull _ hc1 hnull,
        nonNullChainIds_append, nonNullChainIds_cons_nonnull _ hc2 hnull]
      exact not_nodup_of_two c (nonNullChainIds pre) (nonNullChainIds mid)
        (nonNullChainIds suf)
    exact finish_eq_dupchain pp networkId inputsCommitment inputs outputs payload
      hi1 hi2 ho1 ho2 hdup hkind hok hsum1 hsum2 hchainDup
  · intro _ hi1 hi2 ho1 ho2 hdup hkind hok hsum1 hsum2 hchain hpayload
    exact finish_ok_of_checks pp networkId inputsCommitment inputs outputs payload
      hi1 hi2 ho1 ho2 hdup hkind hok hsum1 hsum2 hchain hpayload

/-- Witness for C8: two inputs with the same output id are rejected, and an
essence with two null-id NFT outputs is accepted. -/
theorem essence_duplicate_checks_witness :
    (∃ o, RegularTransactionEssence.finish ⟨1000000, 2, 0⟩ 0 []
      [.utxo ⟨List.replicate 32 0, 0⟩, .utxo ⟨List.replicate 32 0, 0⟩]
      [.basic 100] none = .error (.duplicateUtxo o)) ∧
    RegularTransactionEssence.finish ⟨1000000, 2, 0⟩ 0 []
      [.utxo ⟨List.replicate 32 0, 0⟩]
      [.basic 100, .nft 100 (List.replicate 32 0), .nft 100 (List.replicate 32 0)]
      none =
      .ok ⟨0, [], [.utxo ⟨List.replicate 32 0, 0⟩],
        [.basic 100, .nft 100 (List.replicate 32 0),
          .nft 100 (List.replicate 32 0)], none⟩ :=
  ⟨(essence_duplicate_checks ⟨1000000, 2, 0⟩ 0 []
      [.utxo ⟨List.replicate 32 0, 0⟩, .utxo ⟨List.replicate 32 0, 0⟩]
      [.basic 100] none).1 [] [] [] ⟨List.replicate 32 0, 0⟩
      (by decide) (by decide) (by decide) (by decide) rfl,
   (essence_duplicate_checks ⟨1000000, 2, 0⟩ 0 []
      [.utxo ⟨List.replicate 32 0, 0⟩]
      [.basic 100, .nft 100 (List.replicate 32 0), .nft 100 (List.replicate 32 0)]
      none).2.2
      ⟨.nft 100 (List.replicate 32 0), by decide, .nft 100 (List.replicate 32 0),
        by decide, .nftId (List.replicate 32 0), .nftId (List.replicate 32 0),
        rfl, by decide, rfl, by decide⟩
      (by decide) (by decide) (by decide) (by decide) (by decide) (by decide)
      (by decide) (by decide) (by decide) (by decide)
      (fun q h => Option.noConfusion h)⟩

/-! ## Claim theorem: DTO round trips -/

/-- C1: DTO conversion is lossless — for every valid UTXO input, every
milestone payload valid under given protocol parameters, and every valid
receipt milestone option, converting the value to its DTO form and back
(under the same parameters) succeeds and returns a value equal to the
original. -/
theorem dto_roundtrip_lossless :
    (∀ u : UtxoInput, u.Valid → UtxoInput.tryFromDto u.toDto = .ok u) ∧
    (∀ (pp : ProtocolParameters) (p : MilestonePayload), p.Valid pp →
      ∃ dto, p.toDto = some dto ∧ MilestonePayload.tryFromDto dto pp = .ok p) ∧
    (∀ (tokenSupply : Nat) (r : ReceiptMilestoneOption), r.Valid tokenSupply →
      ∃ dto, r.toDto = some dto ∧
        ReceiptMilestoneOption.tryFromDto dto tokenSupply = .ok r) :=
  ⟨fun _ h => utxo_dto_roundtrip h,
   fun _ _ h => milestone_dto_roundtrip h,
   fun _ _ h => receipt_dto_roundtrip h⟩

/-- Witness for C1 at concrete valid values of each of the three types. -/
theorem dto_roundtrip_lossless_witness :
    UtxoInput.tryFromDto (UtxoInput.toDto ⟨⟨List.replicate 32 0, 3⟩⟩) =
      .ok ⟨⟨List.replicate 32 0, 3⟩⟩ ∧
    (∃ dto, MilestonePayload.toDto ⟨essence0, [sig0]⟩ = some dto ∧
      MilestonePayload.tryFromDto dto ⟨1000000, 2, 0⟩ = .ok ⟨essence0, [sig0]⟩) ∧
    (∃ dto, ReceiptMilestoneOption.toDto
        ⟨0, false, [entry0], .treasuryTransaction tt0⟩ = some dto ∧
      ReceiptMilestoneOption.tryFromDto dto 1000000 =
        .ok ⟨0, false, [entry0], .treasuryTransaction tt0⟩) :=
  ⟨dto_roundtrip_lossless.1 _ (by decide),
   dto_roundtrip_lossless.2.1 ⟨1000000, 2, 0⟩ _ (by decide),
   dto_roundtrip_lossless.2.2 1000000 _ (by decide)⟩

end IotaSdk
